import Mathlib

/-!
Verification development for the product-catalog backend.

The definitions below embed the JavaScript source of the repository:
  - src/helpers/reformatCategoryName.js   (category name formatter)
  - src/unnamed/part_000                  (product controller: getProducts,
                                           addProduct, editProduct, deleteProduct)
  - src/controllers/categoryController.js (getCategories, addCategory)
  - src/middlewares/setAuth.js            (setAuthCookies)
  - src/database/schema/*.js              (tables: products, categories,
                                           product_categories with FK + composite PK)

JavaScript strings are modelled as Lean `String` (char-list based operations are
spelled out so that they mirror `split`, `join`, `trim`, `toLowerCase`).
The database is modelled as an explicit state (`DB`) of table contents; each
request handler is a function from the state and the request data to a response
and a new state.  Behaviour of the drizzle query builder that matters here is
modelled explicitly: a repeated `.where(...)` call replaces the previously set
clause (drizzle stores a single `config.where`), `.values(list)` on an insert
throws when `list` is empty, and the database enforces the declared foreign
keys and the composite primary key of `product_categories`.
-/

/-- JavaScript whitespace test for the characters relevant to `trim`. -/
def jsIsWs (c : Char) : Bool :=
  c = ' ' || c = '\t' || c = '\n' || c = '\r'

/-- JS `String.prototype.toLowerCase` (ASCII fragment). -/
def jsToLower (s : String) : String :=
  ⟨s.data.map Char.toLower⟩

/-- JS `str.split(sep)` for a single-character separator, on char lists.
`"".split(" ") = [""]` and separators at the ends produce empty pieces,
exactly as in JavaScript. -/
def splitCharList (c : Char) : List Char → List (List Char)
  | [] => [[]]
  | x :: xs =>
    match splitCharList c xs with
    | [] => [[]]
    | r :: rs => if x = c then [] :: r :: rs else (x :: r) :: rs

/-- JS `parts.join(sep)` for a single-character separator, on char lists. -/
def joinChar (sep : Char) : List (List Char) → List Char
  | [] => []
  | p :: rest => p ++ rest.flatMap (fun q => sep :: q)

/-- JS `str.trim()` on char lists: strips whitespace from both ends. -/
def jsTrimList (l : List Char) : List Char :=
  ((l.dropWhile jsIsWs).reverse.dropWhile jsIsWs).reverse

/-- Bool test that `pre` begins the list `hay`. -/
def listStartsWith : List Char → List Char → Bool
  | [], _ => true
  | _ :: _, [] => false
  | a :: as, b :: bs => a = b && listStartsWith as bs

/-- Bool test that `needle` occurs contiguously inside the second list. -/
def containsSubList (needle : List Char) : List Char → Bool
  | [] => listStartsWith needle []
  | c :: hay => listStartsWith needle (c :: hay) || containsSubList needle (c :: hay).tail

/-- Postgres `col ILIKE concat("%", pat, "%")` as issued by getProducts:
case-insensitive substring containment. -/
def ilikeContains (pat s : String) : Bool :=
  containsSubList (jsToLower pat).data (jsToLower s).data

/-- JS truthiness of an optional string: `undefined`, `null` and `""` are falsy. -/
def truthyStr : Option String → Bool
  | none => false
  | some s => s != ""

/-- JS truthiness of an optional number: absent and `0` are falsy. -/
def truthyInt : Option Int → Bool
  | none => false
  | some v => v != 0

/-- reformatCategoryNameInput from src/helpers/reformatCategoryName.js:
returns null for falsy input; otherwise lower-cases, and when the lowered
string splits on the space character into at least two pieces, joins the
pieces with underscores and applies trim. -/
def reformatCategoryNameInput (name : Option String) : Option String :=
  match name with
  | none => none
  | some s =>
    if s = "" then none
    else
      let lowerCaseName := jsToLower s
      if 2 ≤ (splitCharList ' ' lowerCaseName.data).length then
        some ⟨jsTrimList (joinChar '_' (splitCharList ' ' lowerCaseName.data))⟩
      else some lowerCaseName

/-- reformatCategoryNameResponse from src/helpers/reformatCategoryName.js:
the display-direction twin, with underscore and space swapped. -/
def reformatCategoryNameResponse (name : Option String) : Option String :=
  match name with
  | none => none
  | some s =>
    if s = "" then none
    else
      let lowerCaseName := jsToLower s
      if 2 ≤ (splitCharList '_' lowerCaseName.data).length then
        some ⟨jsTrimList (joinChar ' ' (splitCharList '_' lowerCaseName.data))⟩
      else some lowerCaseName

/-- Row of the `products` table (src/database/schema/product.js). -/
structure Product where
  id : Int
  name : String
  price : Int
  createdAt : Int
  updatedAt : Int
deriving DecidableEq, Repr

/-- Row of the `categories` table.  Modelled from the spec: the schema file
category.js is not under src/; spec section 6 gives
`categories(id serial pk, name text unique, created_at timestamp)`. -/
structure Category where
  id : Int
  name : String
  createdAt : Int
deriving DecidableEq, Repr

/-- Row of the `product_categories` join table
(src/database/schema/productCategory.js): composite primary key on the pair,
each side a foreign key with cascading delete. -/
structure ProductCategory where
  productId : Int
  categoryId : Int
deriving DecidableEq, Repr

/-- Database state: table contents plus the serial counters and the clock. -/
structure DB where
  products : List Product
  categories : List Category
  productCategories : List ProductCategory
  nextProductId : Int
  nextCategoryId : Int
  now : Int
deriving DecidableEq, Repr

/-- Auth cookie pair attached by setAuthCookies: the signed payload id and the
two max-ages (60 seconds for access, 7 days = 604800 seconds for refresh). -/
structure AuthCookies where
  payloadId : Int
  accessMaxAge : Int
  refreshMaxAge : Int
deriving DecidableEq, Repr

/-- setAuthCookies from src/middlewares/setAuth.js: signs `payload = (id)` into an
access token cookie (expiresIn 60s, Max-Age 60) and a refresh token cookie
(expiresIn 7d, Max-Age 604800) on the response. -/
def setAuthCookies (payloadId : Int) : AuthCookies :=
  { payloadId := payloadId, accessMaxAge := 60, refreshMaxAge := 604800 }

/-- Category object as serialised in responses. -/
structure CategoryOut where
  id : Int
  name : Option String
deriving DecidableEq, Repr

/-- Product object as serialised in responses.  getProducts emits only id,
name, price and categories; add/edit spread the whole row, so the timestamps
are carried optionally. -/
structure ProductOut where
  id : Int
  name : String
  price : Int
  createdAt : Option Int
  updatedAt : Option Int
  categories : List CategoryOut
deriving DecidableEq, Repr

/-- Payload data of the JSON responses of the six handlers. -/
inductive RespData where
  | productsOut (l : List ProductOut)
  | productOut (p : ProductOut)
  | productRows (l : List Product)
  | categoriesOut (l : List CategoryOut)
  | noData
deriving DecidableEq, Repr

/-- A JSON response: status code, message, status string, data payload and the
optional Set-Cookie auth side effect. -/
structure Response where
  statusCode : Int
  message : String
  status : String
  data : RespData
  setAuth : Option AuthCookies
deriving DecidableEq, Repr

/-- Uncaught JavaScript exceptions a handler can die with. -/
inductive JsErr where
  | badJson
  | emptyInsert
  | fkViolation
  | pkViolation
  | missingRow
deriving DecidableEq, Repr

/-- Products carried in a response body. -/
def respProducts (r : Response) : List ProductOut :=
  match r.data with
  | RespData.productsOut l => l
  | RespData.productOut p => [p]
  | _ => []

/-- Bool test that the response body lists a product with the given id. -/
def respHasProduct (r : Response) (pid : Int) : Bool :=
  (respProducts r).any fun po => po.id = pid

/-- Referential integrity of the category side of `product_categories`. -/
@[reducible] def DB.WFcat (db : DB) : Prop :=
  ∀ a ∈ db.productCategories, ∃ c ∈ db.categories, c.id = a.categoryId

/-- Referential integrity of the product side of `product_categories`. -/
@[reducible] def DB.WFprod (db : DB) : Prop :=
  ∀ a ∈ db.productCategories, ∃ p ∈ db.products, p.id = a.productId

/-- The serial counter is ahead of every stored product id. -/
@[reducible] def DB.WFfresh (db : DB) : Prop :=
  ∀ p ∈ db.products, p.id < db.nextProductId

/-- Category ids are pairwise distinct (serial primary key). -/
@[reducible] def DB.WFcatIds (db : DB) : Prop :=
  (db.categories.map Category.id).Nodup

/-- Stable insertion of a product into a list sorted by createdAt descending. -/
def insertCreatedDesc (p : Product) : List Product → List Product
  | [] => [p]
  | q :: t => if q.createdAt < p.createdAt then p :: q :: t else q :: insertCreatedDesc p t

/-- `orderBy(desc(products.createdAt))`: stable sort, newest first. -/
def sortByCreatedDesc (l : List Product) : List Product :=
  l.foldl (fun acc p => insertCreatedDesc p acc) []

/-- The flat row stream of
`products INNER JOIN product_categories INNER JOIN categories
 ORDER BY products.created_at DESC`. -/
def joinRows (db : DB) : List (Product × Category) :=
  (sortByCreatedDesc db.products).flatMap fun p =>
    db.productCategories.flatMap fun a =>
      if a.productId = p.id then
        db.categories.filterMap fun c => if c.id = a.categoryId then some (p, c) else none
      else []

/-- One step of building getProducts' `countMap` (a JS Map of productId to a
Set of categoryIds, in insertion order). -/
def mapInsert : List (Int × List Int) → Int → Int → List (Int × List Int)
  | [], pid, cid => [(pid, [cid])]
  | (k, s) :: rest, pid, cid =>
    if k = pid then (k, if s.contains cid then s else s ++ [cid]) :: rest
    else (k, s) :: mapInsert rest pid cid

/-- getProducts' `countMap`: group the filtered association rows by productId
into the set of matched categoryIds. -/
def collectCats (rows : List ProductCategory) : List (Int × List Int) :=
  rows.foldl (fun m a => mapInsert m a.productId a.categoryId) []

/-- Lookup in the insertion-ordered map (empty set when the key is absent). -/
def lookupSet : List (Int × List Int) → Int → List Int
  | [], _ => []
  | (k, s) :: rest, pid => if k = pid then s else lookupSet rest pid

/-- Step 1 of getProducts: the `matchingProductIds` computation — fetch the
association rows whose categoryId is in the filter, group them, and keep the
products whose matched set contains every required id. -/
def matchingIdsFor (db : DB) (catIds : List Int) : List Int :=
  let rows := db.productCategories.filter fun a => catIds.contains a.categoryId
  let countMap := collectCats rows
  (countMap.filter fun e => catIds.all fun cid => e.2.contains cid).map (·.1)

/-- One row of the flat join stream folded into the `productMap` accumulator
(push the category onto an existing entry, or append a fresh entry). -/
def addRow (m : List ProductOut) (p : Product) (c : Category) : List ProductOut :=
  if m.any fun po => po.id = p.id then
    m.map fun po =>
      if po.id = p.id then
        { po with categories :=
            po.categories ++ [{ id := c.id, name := reformatCategoryNameResponse (some c.name) }] }
      else po
  else
    m ++ [{ id := p.id, name := p.name, price := p.price, createdAt := none, updatedAt := none,
            categories := [{ id := c.id, name := reformatCategoryNameResponse (some c.name) }] }]

/-- Step 3 of getProducts: group the flat rows into one record per product. -/
def assembleProducts (rows : List (Product × Category)) : List ProductOut :=
  rows.foldl (fun m rc => addRow m rc.1 rc.2) []

/-- Apply the single WHERE clause held by the drizzle query builder (if any)
to the join rows; both clauses used by getProducts condition on product
columns only. -/
def applyWhere (w : Option (Product → Bool)) (rows : List (Product × Category)) :
    List (Product × Category) :=
  rows.filter fun rc => match w with | some f => f rc.1 | none => true

/-- getProducts after the query-string parse (src/unnamed/part_000, lines
56-175).  When the category filter is active the builder's WHERE is first set
to `inArray(products.id, matchingProductIds)`; a later truthy name search
calls `.where(ilike(...))` on the same builder, which REPLACES the stored
clause (drizzle keeps a single `config.where`). -/
def getProductsCore (db : DB) (categoryIds : Option (List Int)) (nameSearch : Option String) :
    Response :=
  let catList := categoryIds.getD []
  if 0 < catList.length then
    let matchingProductIds := matchingIdsFor db catList
    if matchingProductIds.length = 0 then
      { statusCode := 200, message := "No products found", status := "success",
        data := RespData.productsOut [], setAuth := none }
    else
      let w1 : Option (Product → Bool) := some fun p => matchingProductIds.contains p.id
      let w2 : Option (Product → Bool) :=
        if truthyStr nameSearch then some fun p => ilikeContains (nameSearch.getD "") p.name
        else w1
      { statusCode := 200, message := "Products fetched successfully", status := "success",
        data := RespData.productsOut (assembleProducts (applyWhere w2 (joinRows db))),
        setAuth := none }
  else
    let w2 : Option (Product → Bool) :=
      if truthyStr nameSearch then some fun p => ilikeContains (nameSearch.getD "") p.name
      else none
    { statusCode := 200, message := "Products fetched successfully", status := "success",
      data := RespData.productsOut (assembleProducts (applyWhere w2 (joinRows db))),
      setAuth := none }

/-- Values JSON.parse can return on the inputs this API receives.  Arrays of
integers are the intended shape of `categoryIds`; every other successfully
parsed JSON value is collapsed to `other` (the handler then skips the filter
because `.length > 0` is not satisfied). -/
inductive JsonVal where
  | arr (l : List Int)
  | other
deriving DecidableEq, Repr

/-- JSON insignificant whitespace. -/
def jsonWs (c : Char) : Bool :=
  c = ' ' || c = '\t' || c = '\n' || c = '\r'

/-- Greedy split of leading decimal digits. -/
def takeDigits (l : List Char) : List Char × List Char :=
  (l.takeWhile Char.isDigit, l.dropWhile Char.isDigit)

/-- Numeric value of a digit list. -/
def digitsToNat (l : List Char) : Nat :=
  l.foldl (fun n c => n * 10 + (c.toNat - 48)) 0

/-- Parse a JSON integer token, returning the rest of the input. -/
def parseIntTok (l : List Char) : Option (Int × List Char) :=
  match l with
  | '-' :: rest =>
    let (ds, rest2) := takeDigits rest
    if ds.length = 0 then none else some (-(digitsToNat ds : Int), rest2)
  | _ =>
    let (ds, rest2) := takeDigits l
    if ds.length = 0 then none else some ((digitsToNat ds : Int), rest2)

/-- Parse the tail of a JSON integer array after its first element.  The fuel
bounds the number of elements; each step consumes at least the comma, so an
initial fuel of the input length plus one never runs out. -/
def parseArrTail : Nat → List Char → List Int → Option (List Int × List Char)
  | 0, _, _ => none
  | fuel + 1, l, acc =>
    match l.dropWhile jsonWs with
    | ']' :: rest => some (acc.reverse, rest)
    | ',' :: rest =>
      match parseIntTok (rest.dropWhile jsonWs) with
      | none => none
      | some (n, r3) => parseArrTail fuel r3 (n :: acc)
    | _ => none

/-- Parse a JSON integer array body (after the opening bracket). -/
def parseArr (l : List Char) : Option (List Int × List Char) :=
  match l.dropWhile jsonWs with
  | ']' :: rest => some ([], rest)
  | l1 =>
    match parseIntTok l1 with
    | none => none
    | some (n, r) => parseArrTail (r.length + 1) r [n]

/-- Consume a JSON string token up to its closing quote. -/
def parseStringTok : List Char → Option (List Char)
  | [] => none
  | '"' :: rest => some rest
  | _ :: rest => parseStringTok rest

/-- Models JSON.parse on the category-filter query parameter, restricted to the
value shapes relevant here: integer arrays, integer/string/keyword scalars.
Anything else (such as the bare word `abc`) raises a SyntaxError, modelled as
`none`. -/
def parseJson (s : String) : Option JsonVal :=
  match s.data.dropWhile jsonWs with
  | '[' :: rest =>
    match parseArr rest with
    | none => none
    | some (ns, rest2) =>
      if (rest2.dropWhile jsonWs).isEmpty then some (JsonVal.arr ns) else none
  | '"' :: rest =>
    match parseStringTok rest with
    | none => none
    | some rest2 => if (rest2.dropWhile jsonWs).isEmpty then some JsonVal.other else none
  | 't' :: 'r' :: 'u' :: 'e' :: rest =>
    if (rest.dropWhile jsonWs).isEmpty then some JsonVal.other else none
  | 'f' :: 'a' :: 'l' :: 's' :: 'e' :: rest =>
    if (rest.dropWhile jsonWs).isEmpty then some JsonVal.other else none
  | 'n' :: 'u' :: 'l' :: 'l' :: rest =>
    if (rest.dropWhile jsonWs).isEmpty then some JsonVal.other else none
  | l =>
    match parseIntTok l with
    | some (_, rest2) => if (rest2.dropWhile jsonWs).isEmpty then some JsonVal.other else none
    | none => none

/-- getProducts (src/unnamed/part_000): parses the raw `categoryIds` query
parameter with an unguarded JSON.parse (a parse failure is an uncaught
exception), then runs the core lookup. -/
def getProducts (db : DB) (categoryIdsRaw : Option String) (nameSearch : Option String) :
    Except JsErr Response × DB :=
  if truthyStr categoryIdsRaw then
    match parseJson (categoryIdsRaw.getD "") with
    | none => (Except.error JsErr.badJson, db)
    | some (JsonVal.arr l) => (Except.ok (getProductsCore db (some l) nameSearch), db)
    | some JsonVal.other => (Except.ok (getProductsCore db none nameSearch), db)
  else (Except.ok (getProductsCore db none nameSearch), db)

/-- `tx.insert(productCategories).values(rows)` as executed by the database:
drizzle rejects an empty values list; Postgres enforces the two foreign keys
of `product_categories` and its composite primary key.  On success the rows
are appended to the table. -/
def insertAssocRows (cur : List ProductCategory) (cats : List Category)
    (prods : List Product) (rows : List ProductCategory) :
    Except JsErr (List ProductCategory) :=
  if rows.length = 0 then Except.error JsErr.emptyInsert
  else if !(rows.all fun a => cats.any fun c => c.id = a.categoryId) then
    Except.error JsErr.fkViolation
  else if !(rows.all fun a => prods.any fun p => p.id = a.productId) then
    Except.error JsErr.fkViolation
  else if rows.Nodup ∧ ∀ a ∈ rows, a ∉ cur then Except.ok (cur ++ rows)
  else Except.error JsErr.pkViolation

/-- The `productWithCategories` re-fetch used by addProduct and editProduct:
`product_categories INNER JOIN products INNER JOIN categories
 WHERE productId = pid`, serialised to response category objects. -/
def fetchCatsOf (db : DB) (pid : Int) : List CategoryOut :=
  (db.productCategories.filter fun a => a.productId = pid).flatMap fun a =>
    (db.products.filter fun p => p.id = a.productId).flatMap fun _ =>
      (db.categories.filter fun c => c.id = a.categoryId).map fun c =>
        { id := c.id, name := reformatCategoryNameResponse (some c.name) }

/-- addProduct (src/unnamed/part_000, lines 230-298): duplicate-name check,
existing-categories gate (at least one supplied id must resolve), then a
transaction inserting the product row and one association row per id of the
ORIGINAL supplied list, then the re-fetch, auth cookies and the response. -/
def addProduct (db : DB) (name : String) (price : Int) (categoryIds : List Int) :
    Except JsErr Response × DB :=
  if 0 < (db.products.filter fun p => p.name = name).length then
    (Except.ok { statusCode := 400, message := "Product already exists", status := "error",
                 data := RespData.noData, setAuth := none }, db)
  else
    let existingCategories := db.categories.filter fun c => categoryIds.contains c.id
    if existingCategories.length = 0 then
      (Except.ok { statusCode := 400, message := "Category not found", status := "error",
                   data := RespData.noData, setAuth := none }, db)
    else
      let newProduct : Product :=
        { id := db.nextProductId, name := name, price := price,
          createdAt := db.now, updatedAt := db.now }
      let products1 := db.products ++ [newProduct]
      match insertAssocRows db.productCategories db.categories products1
          (categoryIds.map fun cid => { productId := newProduct.id, categoryId := cid }) with
      | Except.error e => (Except.error e, db)
      | Except.ok assocs1 =>
        let db1 : DB :=
          { db with products := products1, productCategories := assocs1,
                    nextProductId := db.nextProductId + 1 }
        (Except.ok { statusCode := 200, message := "Product added successfully",
                     status := "success",
                     data := RespData.productOut
                       { id := newProduct.id, name := newProduct.name,
                         price := newProduct.price,
                         createdAt := some newProduct.createdAt,
                         updatedAt := some newProduct.updatedAt,
                         categories := fetchCatsOf db1 newProduct.id },
                     setAuth := some (setAuthCookies newProduct.id) }, db1)

/-- The `tx.update(products).set(...)` row transform of editProduct: replace
name and price only when truthy, always refresh updatedAt, only on the row
with the given id. -/
def editUpdateRow (dbnow : Int) (id : Int) (name : Option String) (price : Option Int)
    (p : Product) : Product :=
  if p.id = id then
    { p with
      name := if truthyStr name then name.getD p.name else p.name,
      price := if truthyInt price then price.getD p.price else p.price,
      updatedAt := dbnow }
  else p

/-- The `validCategoryIds` computed by editProduct: the supplied ids that
resolve to existing categories. -/
def validCategoryIdsFor (db : DB) (l : List Int) : List Int :=
  (db.categories.filter fun c => l.contains c.id).map (·.id)

/-- The association table after editProduct deletes all rows of a product. -/
def assocsWithout (db : DB) (id : Int) : List ProductCategory :=
  db.productCategories.filter fun a => a.productId != id

/-- editProduct (src/unnamed/part_000, lines 346-430): not-found check, then a
transaction updating the truthy fields plus updatedAt and, when a non-empty
categoryIds list is supplied, validating the ids, deleting ALL of the
product's association rows and inserting fresh rows for the validated ids;
finally the re-fetch and the response.  An error inside the transaction rolls
the whole transaction back and escapes the handler. -/
def editProduct (db : DB) (id : Int) (name : Option String) (price : Option Int)
    (categoryIds : Option (List Int)) : Except JsErr Response × DB :=
  let existingProduct := db.products.filter fun p => p.id = id
  if existingProduct.length = 0 then
    (Except.ok { statusCode := 404, message := "Product not found", status := "error",
                 data := RespData.noData, setAuth := none }, db)
  else
    let products1 := db.products.map (editUpdateRow db.now id name price)
    match products1.find? fun p => p.id = id with
    | none => (Except.error JsErr.missingRow, db)
    | some product =>
      let txResult : Except JsErr (List ProductCategory) :=
        match categoryIds with
        | some l =>
          if 0 < l.length then
            insertAssocRows (assocsWithout db id) db.categories products1
              ((validCategoryIdsFor db l).map fun cid => { productId := id, categoryId := cid })
          else Except.ok db.productCategories
        | none => Except.ok db.productCategories
      match txResult with
      | Except.error e => (Except.error e, db)
      | Except.ok assocs1 =>
        let db2 : DB := { db with products := products1, productCategories := assocs1 }
        (Except.ok { statusCode := 200, message := "Product updated successfully",
                     status := "success",
                     data := RespData.productOut
                       { id := product.id, name := product.name, price := product.price,
                         createdAt := some product.createdAt,
                         updatedAt := some product.updatedAt,
                         categories := fetchCatsOf db2 id },
                     setAuth := none }, db2)

/-- deleteProduct (src/unnamed/part_000): not-found check, then deletion of the
product row; the cascading foreign key removes its association rows. -/
def deleteProduct (db : DB) (id : Int) : Except JsErr Response × DB :=
  let existing := db.products.filter fun p => p.id = id
  if existing.length = 0 then
    (Except.ok { statusCode := 404, message := "Product not found", status := "error",
                 data := RespData.noData, setAuth := none }, db)
  else
    (Except.ok { statusCode := 200, message := "Product deleted successfully",
                 status := "success", data := RespData.productRows existing,
                 setAuth := none },
     { db with products := db.products.filter fun p => p.id != id,
               productCategories := db.productCategories.filter fun a => a.productId != id })

/-- addCategory (src/controllers/categoryController.js): requires a truthy
name, canonicalises it, rejects duplicates, inserts and echoes the row. -/
def addCategory (db : DB) (name : Option String) : Except JsErr Response × DB :=
  if !(truthyStr name) then
    (Except.ok { statusCode := 400, message := "Name is required", status := "error",
                 data := RespData.noData, setAuth := none }, db)
  else
    let formattedCategoryName := (reformatCategoryNameInput name).getD ""
    if 0 < (db.categories.filter fun c => c.name = formattedCategoryName).length then
      (Except.ok { statusCode := 400, message := "Category already exists", status := "error",
                   data := RespData.noData, setAuth := none }, db)
    else
      let newCat : Category :=
        { id := db.nextCategoryId, name := formattedCategoryName, createdAt := db.now }
      (Except.ok { statusCode := 200, message := "Category added successfully",
                   status := "success",
                   data := RespData.categoriesOut
                     [{ id := newCat.id, name := reformatCategoryNameResponse (some newCat.name) }],
                   setAuth := none },
       { db with categories := db.categories ++ [newCat],
                 nextCategoryId := db.nextCategoryId + 1 })

/-- getCategories (src/controllers/categoryController.js): list all categories
in display form. -/
def getCategories (db : DB) : Except JsErr Response × DB :=
  (Except.ok { statusCode := 200, message := "Categories fetched successfully",
               status := "success",
               data := RespData.categoriesOut (db.categories.map fun c =>
                 { id := c.id, name := reformatCategoryNameResponse (some c.name) }),
               setAuth := none }, db)

/-- Split on arbitrary whitespace, for stating claim C7 in the spec's words. -/
def splitByWs : List Char → List (List Char)
  | [] => [[]]
  | x :: xs =>
    match splitByWs xs with
    | [] => [[]]
    | r :: rs => if jsIsWs x then [] :: r :: rs else (x :: r) :: rs

/-- The whitespace-separated tokens of a string (empty pieces dropped). -/
def wsTokens (s : String) : List String :=
  ((splitByWs s.data).filter fun l => !l.isEmpty).map fun l => ⟨l⟩

/-- Modelled from the spec: claim C7's description of toStorageForm — lower-case
the input; with multiple whitespace-separated tokens, join the tokens with
underscores and trim surrounding whitespace; a single-token input yields the
lowercased, trimmed input; null/empty input yields null.  Stated from the
spec words, for comparison against reformatCategoryNameInput. -/
def specToStorageForm (name : Option String) : Option String :=
  match name with
  | none => none
  | some s =>
    if s = "" then none
    else
      let toks := wsTokens (jsToLower s)
      if 2 ≤ toks.length then some ⟨jsTrimList (joinChar '_' (toks.map String.data))⟩
      else some ⟨jsTrimList (jsToLower s).data⟩

/-- The name restriction getProducts applies when a name search is supplied. -/
def nameFilterOk (ns : Option String) (p : Product) : Bool :=
  if truthyStr ns then ilikeContains (ns.getD "") p.name else true

theorem splitCharList_ne_nil (c : Char) (l : List Char) : splitCharList c l ≠ [] := by
  induction l with
  | nil => simp [splitCharList]
  | cons x xs ih =>
    simp only [splitCharList]
    cases h : splitCharList c xs with
    | nil => simp
    | cons r rs =>
      by_cases hx : x = c <;> simp [hx]

theorem joinChar_cons (sep : Char) (r : List Char) (rs : List (List Char)) :
    joinChar sep (r :: rs) = r ++ rs.flatMap (fun q => sep :: q) := rfl

theorem splitCharList_cons_eq (c x : Char) (xs r : List Char) (rs : List (List Char))
    (h : splitCharList c xs = r :: rs) :
    splitCharList c (x :: xs) = if x = c then [] :: r :: rs else (x :: r) :: rs := by
  simp only [splitCharList, h]

theorem joinChar_splitCharList (c d : Char) (l : List Char) :
    joinChar d (splitCharList c l) = l.map fun x => if x = c then d else x := by
  induction l with
  | nil => simp [splitCharList, joinChar]
  | cons x xs ih =>
    cases h : splitCharList c xs with
    | nil => exact absurd h (splitCharList_ne_nil c xs)
    | cons r rs =>
      rw [h] at ih
      rw [splitCharList_cons_eq c x xs r rs h]
      by_cases hx : x = c
      · subst hx
        rw [if_pos rfl, List.map_cons, if_pos rfl, joinChar_cons, List.nil_append,
          List.flatMap_cons, List.cons_append, ← joinChar_cons, ih]
      · rw [if_neg hx, List.map_cons, if_neg hx, joinChar_cons, List.cons_append,
          ← joinChar_cons, ih]

theorem two_le_splitCharList_iff (c : Char) (l : List Char) :
    2 ≤ (splitCharList c l).length ↔ c ∈ l := by
  induction l with
  | nil => simp [splitCharList]
  | cons x xs ih =>
    cases h : splitCharList c xs with
    | nil => exact absurd h (splitCharList_ne_nil c xs)
    | cons r rs =>
      rw [h] at ih
      rw [splitCharList_cons_eq c x xs r rs h]
      by_cases hx : x = c
      · subst hx
        simp
      · rw [if_neg hx]
        simp only [List.length_cons] at ih ⊢
        rw [List.mem_cons]
        constructor
        · intro hlen
          exact Or.inr (ih.mp hlen)
        · rintro (hc | hc)
          · exact absurd hc.symm hx
          · exact ih.mpr hc

theorem mem_insertCreatedDesc (p x : Product) (l : List Product) :
    x ∈ insertCreatedDesc p l ↔ x = p ∨ x ∈ l := by
  induction l with
  | nil => simp [insertCreatedDesc]
  | cons q t ih =>
    simp only [insertCreatedDesc]
    by_cases h : q.createdAt < p.createdAt
    · simp [h]
    · simp only [if_neg h, List.mem_cons, ih]
      tauto

theorem mem_sortByCreatedDesc_aux (l : List Product) (acc : List Product) (x : Product) :
    x ∈ l.foldl (fun acc p => insertCreatedDesc p acc) acc ↔ x ∈ acc ∨ x ∈ l := by
  induction l generalizing acc with
  | nil => simp
  | cons p t ih =>
    simp only [List.foldl_cons, ih, mem_insertCreatedDesc, List.mem_cons]
    tauto

theorem mem_sortByCreatedDesc (l : List Product) (x : Product) :
    x ∈ sortByCreatedDesc l ↔ x ∈ l := by
  rw [sortByCreatedDesc, mem_sortByCreatedDesc_aux]
  simp

theorem mem_joinRows (db : DB) (p : Product) (c : Category) :
    (p, c) ∈ joinRows db ↔
      p ∈ db.products ∧ c ∈ db.categories ∧
        ProductCategory.mk p.id c.id ∈ db.productCategories := by
  simp only [joinRows, List.mem_flatMap, mem_sortByCreatedDesc]
  constructor
  · rintro ⟨p1, hp1, a, ha, hmem⟩
    by_cases h : a.productId = p1.id
    · rw [if_pos h] at hmem
      rcases List.mem_filterMap.mp hmem with ⟨c1, hc1, heq⟩
      by_cases h2 : c1.id = a.categoryId
      · rw [if_pos h2] at heq
        injection heq with heq2
        injection heq2 with heqp heqc
        subst heqp; subst heqc
        refine ⟨hp1, hc1, ?_⟩
        have : a = ⟨a.productId, a.categoryId⟩ := rfl
        rw [h, ← h2] at this
        rwa [← this]
      · rw [if_neg h2] at heq
        cases heq
    · rw [if_neg h] at hmem
      simp at hmem
  · rintro ⟨hp, hc, ha⟩
    refine ⟨p, hp, ⟨p.id, c.id⟩, ha, ?_⟩
    rw [if_pos rfl]
    exact List.mem_filterMap.mpr ⟨c, hc, by rw [if_pos rfl]⟩

theorem lookupSet_mapInsert_self (m : List (Int × List Int)) (pid cid : Int) :
    lookupSet (mapInsert m pid cid) pid =
      if (lookupSet m pid).contains cid then lookupSet m pid else lookupSet m pid ++ [cid] := by
  induction m with
  | nil => simp [mapInsert, lookupSet]
  | cons e rest ih =>
    obtain ⟨k, s⟩ := e
    by_cases hk : k = pid
    · subst hk
      simp [mapInsert, lookupSet]
    · simp only [mapInsert, if_neg hk, lookupSet, ih]

theorem lookupSet_mapInsert_ne (m : List (Int × List Int)) (pid cid q : Int)
    (hq : ¬ q = pid) : lookupSet (mapInsert m pid cid) q = lookupSet m q := by
  induction m with
  | nil =>
    have hpq : ¬ pid = q := fun h => hq h.symm
    simp [mapInsert, lookupSet, hpq]
  | cons e rest ih =>
    obtain ⟨k, s⟩ := e
    by_cases hk : k = pid
    · subst hk
      have hkq : ¬ k = q := fun h => hq h.symm
      simp only [mapInsert, if_pos rfl, lookupSet, if_neg hkq]
    · simp only [mapInsert, if_neg hk, lookupSet, ih]

theorem mem_keys_mapInsert (m : List (Int × List Int)) (pid cid q : Int) :
    q ∈ (mapInsert m pid cid).map (·.1) ↔ q ∈ m.map (·.1) ∨ q = pid := by
  induction m with
  | nil => simp [mapInsert]
  | cons e rest ih =>
    obtain ⟨k, s⟩ := e
    by_cases hk : k = pid
    · subst hk
      simp [mapInsert]
      tauto
    · simp only [mapInsert, if_neg hk, List.map_cons, List.mem_cons, ih]
      tauto

theorem keys_mapInsert_of_mem (m : List (Int × List Int)) (pid cid : Int)
    (h : pid ∈ m.map (·.1)) :
    (mapInsert m pid cid).map (·.1) = m.map (·.1) := by
  induction m with
  | nil => simp at h
  | cons e rest ih =>
    obtain ⟨k, s⟩ := e
    by_cases hk : k = pid
    · subst hk
      simp [mapInsert]
    · simp only [List.map_cons, List.mem_cons] at h
      rcases h with h | h
      · exact absurd h.symm hk
      · simp only [mapInsert, if_neg hk, List.map_cons, ih h]

theorem keys_mapInsert_of_not_mem (m : List (Int × List Int)) (pid cid : Int)
    (h : ¬ pid ∈ m.map (·.1)) :
    (mapInsert m pid cid).map (·.1) = m.map (·.1) ++ [pid] := by
  induction m with
  | nil => simp [mapInsert]
  | cons e rest ih =>
    obtain ⟨k, s⟩ := e
    simp only [List.map_cons, List.mem_cons] at h
    push_neg at h
    have hk : ¬ k = pid := fun h2 => h.1 h2.symm
    simp only [mapInsert, if_neg hk, List.map_cons, List.cons_append, ih h.2]

theorem nodup_keys_mapInsert (m : List (Int × List Int)) (pid cid : Int)
    (h : (m.map (·.1)).Nodup) : ((mapInsert m pid cid).map (·.1)).Nodup := by
  by_cases hm : pid ∈ m.map (·.1)
  · rwa [keys_mapInsert_of_mem m pid cid hm]
  · rw [keys_mapInsert_of_not_mem m pid cid hm, List.nodup_append]
    refine ⟨h, List.nodup_singleton pid, fun a ha hb => ?_⟩
    simp only [List.mem_singleton] at hb
    subst hb
    exact hm ha

theorem nodup_keys_collect_aux (rows : List ProductCategory) (m : List (Int × List Int))
    (h : (m.map (·.1)).Nodup) :
    ((rows.foldl (fun m a => mapInsert m a.productId a.categoryId) m).map (·.1)).Nodup := by
  induction rows generalizing m with
  | nil => simpa using h
  | cons a t ih =>
    simp only [List.foldl_cons]
    exact ih _ (nodup_keys_mapInsert m a.productId a.categoryId h)

theorem nodup_keys_collect (rows : List ProductCategory) :
    ((collectCats rows).map (·.1)).Nodup :=
  nodup_keys_collect_aux rows [] (by simp)

theorem mem_keys_collect_aux (rows : List ProductCategory) (m : List (Int × List Int))
    (pid : Int) :
    pid ∈ ((rows.foldl (fun m a => mapInsert m a.productId a.categoryId) m).map (·.1)) ↔
      pid ∈ m.map (·.1) ∨ ∃ a ∈ rows, a.productId = pid := by
  induction rows generalizing m with
  | nil => simp
  | cons a t ih =>
    rw [List.foldl_cons, ih, mem_keys_mapInsert]
    constructor
    · rintro ((h | h) | h)
      · exact Or.inl h
      · exact Or.inr ⟨a, List.mem_cons_self a t, h.symm⟩
      · obtain ⟨b, hb, hbe⟩ := h
        exact Or.inr ⟨b, List.mem_cons_of_mem a hb, hbe⟩
    · rintro (h | ⟨b, hb, hbe⟩)
      · exact Or.inl (Or.inl h)
      · rcases List.mem_cons.mp hb with hb | hb
        · subst hb
          exact Or.inl (Or.inr hbe.symm)
        · exact Or.inr ⟨b, hb, hbe⟩

theorem mem_keys_collect (rows : List ProductCategory) (pid : Int) :
    pid ∈ ((collectCats rows).map (·.1)) ↔ ∃ a ∈ rows, a.productId = pid := by
  rw [collectCats, mem_keys_collect_aux]
  simp

theorem mem_lookupSet_collect_aux (rows : List ProductCategory) (m : List (Int × List Int))
    (pid cid : Int) :
    cid ∈ lookupSet (rows.foldl (fun m a => mapInsert m a.productId a.categoryId) m) pid ↔
      cid ∈ lookupSet m pid ∨ ProductCategory.mk pid cid ∈ rows := by
  induction rows generalizing m with
  | nil => simp
  | cons a t ih =>
    obtain ⟨ap, ac⟩ := a
    rw [List.foldl_cons, ih]
    simp only [List.mem_cons, ProductCategory.mk.injEq]
    by_cases hp : pid = ap
    · subst hp
      rw [lookupSet_mapInsert_self]
      by_cases hc : (lookupSet m pid).contains ac
      · rw [if_pos hc]
        have hmem : ac ∈ lookupSet m pid := List.elem_iff.mp hc
        constructor
        · rintro (h | h)
          · exact Or.inl h
          · exact Or.inr (Or.inr h)
        · rintro (h | ⟨⟨h1, h2⟩ | h⟩)
          · exact Or.inl h
          · subst h2
            exact Or.inl hmem
          · exact Or.inr h
      · rw [if_neg hc]
        constructor
        · intro hor
          rcases hor with h | h
          · rcases List.mem_append.mp h with h2 | h2
            · exact Or.inl h2
            · simp only [List.mem_singleton] at h2
              exact Or.inr (Or.inl ⟨rfl, h2⟩)
          · exact Or.inr (Or.inr h)
        · rintro (h | ⟨⟨h1, h2⟩ | h⟩)
          · exact Or.inl (List.mem_append.mpr (Or.inl h))
          · subst h2
            exact Or.inl (List.mem_append.mpr (Or.inr (List.mem_singleton.mpr rfl)))
          · exact Or.inr h
    · rw [lookupSet_mapInsert_ne m ap ac pid hp]
      constructor
      · rintro (h | h)
        · exact Or.inl h
        · exact Or.inr (Or.inr h)
      · rintro (h | ⟨⟨h1, h2⟩ | h⟩)
        · exact Or.inl h
        · exact absurd h1 hp
        · exact Or.inr h

theorem mem_lookupSet_collect (rows : List ProductCategory) (pid cid : Int) :
    cid ∈ lookupSet (collectCats rows) pid ↔ ProductCategory.mk pid cid ∈ rows := by
  rw [collectCats, mem_lookupSet_collect_aux]
  simp [lookupSet]

theorem entry_eq_lookupSet (m : List (Int × List Int)) (pid : Int) (s : List Int)
    (hnd : (m.map (·.1)).Nodup) (h : (pid, s) ∈ m) : s = lookupSet m pid := by
  induction m with
  | nil => simp at h
  | cons e rest ih =>
    obtain ⟨k, v⟩ := e
    simp only [List.map_cons, List.nodup_cons] at hnd
    rcases List.mem_cons.mp h with h | h
    · injection h with h1 h2
      subst h1
      subst h2
      simp [lookupSet]
    · have hk : ¬ k = pid := by
        intro hkp
        subst hkp
        exact hnd.1 (List.mem_map.mpr ⟨(k, s), h, rfl⟩)
      simp only [lookupSet, if_neg hk]
      exact ih hnd.2 h

theorem lookup_entry_mem (m : List (Int × List Int)) (pid : Int)
    (h : pid ∈ m.map (·.1)) : (pid, lookupSet m pid) ∈ m := by
  induction m with
  | nil => simp at h
  | cons e rest ih =>
    obtain ⟨k, v⟩ := e
    by_cases hk : k = pid
    · subst hk
      simp [lookupSet]
    · simp only [List.map_cons, List.mem_cons] at h
      rcases h with h | h
      · exact absurd h.symm hk
      · simp only [lookupSet, if_neg hk]
        exact List.mem_cons_of_mem _ (ih h)

theorem mem_matchingIdsFor (db : DB) (C : List Int) (pid : Int) :
    pid ∈ matchingIdsFor db C ↔
      (∃ a ∈ db.productCategories, a.productId = pid ∧ a.categoryId ∈ C) ∧
        ∀ cid ∈ C, ProductCategory.mk pid cid ∈ db.productCategories := by
  unfold matchingIdsFor
  constructor
  · intro h
    rcases List.mem_map.mp h with ⟨e, he, hid⟩
    rcases List.mem_filter.mp he with ⟨hmem, hall⟩
    have hepair : e = (pid, e.2) := by
      rw [← hid]
    rw [hepair] at hmem
    have hs : e.2 = lookupSet (collectCats
        (db.productCategories.filter fun a => C.contains a.categoryId)) pid :=
      entry_eq_lookupSet _ pid e.2 (nodup_keys_collect _) hmem
    have hkeys : pid ∈ ((collectCats
        (db.productCategories.filter fun a => C.contains a.categoryId)).map (·.1)) :=
      List.mem_map.mpr ⟨(pid, e.2), hmem, rfl⟩
    constructor
    · rcases (mem_keys_collect _ pid).mp hkeys with ⟨a, ha, hap⟩
      rcases List.mem_filter.mp ha with ⟨ha2, hc2⟩
      exact ⟨a, ha2, hap, List.elem_iff.mp hc2⟩
    · intro cid hcid
      have hcont : e.2.contains cid = true := List.all_eq_true.mp hall cid hcid
      have : cid ∈ e.2 := List.elem_iff.mp hcont
      rw [hs] at this
      have := (mem_lookupSet_collect _ pid cid).mp this
      exact (List.mem_filter.mp this).1
  · rintro ⟨⟨a, ha, hap, hac⟩, hall⟩
    have hrow : a ∈ db.productCategories.filter fun a => C.contains a.categoryId :=
      List.mem_filter.mpr ⟨ha, List.elem_iff.mpr hac⟩
    have hkeys : pid ∈ ((collectCats
        (db.productCategories.filter fun a => C.contains a.categoryId)).map (·.1)) :=
      (mem_keys_collect _ pid).mpr ⟨a, hrow, hap⟩
    have hentry := lookup_entry_mem _ pid hkeys
    refine List.mem_map.mpr ⟨(pid, lookupSet (collectCats
      (db.productCategories.filter fun a => C.contains a.categoryId)) pid),
      List.mem_filter.mpr ⟨hentry, ?_⟩, rfl⟩
    refine List.all_eq_true.mpr fun cid hcid => ?_
    refine List.elem_iff.mpr ?_
    refine (mem_lookupSet_collect _ pid cid).mpr ?_
    refine List.mem_filter.mpr ⟨hall cid hcid, List.elem_iff.mpr hcid⟩

theorem addRow_id_preserved (p : Product) (c : Category) (po : ProductOut) :
    ((if po.id = p.id then
        { po with categories :=
            po.categories ++ [{ id := c.id, name := reformatCategoryNameResponse (some c.name) }] }
      else po) : ProductOut).id = po.id := by
  by_cases h : po.id = p.id <;> simp [h]

theorem mem_ids_addRow (m : List ProductOut) (p : Product) (c : Category) (q : Int) :
    (∃ po ∈ addRow m p c, po.id = q) ↔ (∃ po ∈ m, po.id = q) ∨ q = p.id := by
  unfold addRow
  by_cases hany : m.any fun po => po.id = p.id
  · rw [if_pos hany]
    constructor
    · rintro ⟨po, hpo, hid⟩
      rcases List.mem_map.mp hpo with ⟨po0, hpo0, heq⟩
      have : po.id = po0.id := by
        rw [← heq]
        exact addRow_id_preserved p c po0
      exact Or.inl ⟨po0, hpo0, by rw [← this, hid]⟩
    · rintro (⟨po, hpo, hid⟩ | hq)
      · refine ⟨if po.id = p.id then
          { po with categories :=
              po.categories ++ [{ id := c.id, name := reformatCategoryNameResponse (some c.name) }] }
          else po, List.mem_map.mpr ⟨po, hpo, rfl⟩, ?_⟩
        rw [addRow_id_preserved p c po, hid]
      · rcases List.any_eq_true.mp hany with ⟨po, hpo, hid⟩
        simp only [decide_eq_true_eq] at hid
        refine ⟨if po.id = p.id then
          { po with categories :=
              po.categories ++ [{ id := c.id, name := reformatCategoryNameResponse (some c.name) }] }
          else po, List.mem_map.mpr ⟨po, hpo, rfl⟩, ?_⟩
        rw [addRow_id_preserved p c po, hid, hq]
  · rw [if_neg hany]
    constructor
    · rintro ⟨po, hpo, hid⟩
      rcases List.mem_append.mp hpo with h | h
      · exact Or.inl ⟨po, h, hid⟩
      · simp only [List.mem_singleton] at h
        subst h
        exact Or.inr hid.symm
    · rintro (⟨po, hpo, hid⟩ | hq)
      · exact ⟨po, List.mem_append.mpr (Or.inl hpo), hid⟩
      · refine ⟨_, List.mem_append.mpr (Or.inr (List.mem_singleton.mpr rfl)), hq.symm⟩

theorem mem_ids_assemble_aux (rows : List (Product × Category)) (m : List ProductOut)
    (q : Int) :
    (∃ po ∈ rows.foldl (fun m rc => addRow m rc.1 rc.2) m, po.id = q) ↔
      (∃ po ∈ m, po.id = q) ∨ ∃ rc ∈ rows, rc.1.id = q := by
  induction rows generalizing m with
  | nil => simp
  | cons rc t ih =>
    rw [List.foldl_cons, ih, mem_ids_addRow]
    constructor
    · rintro ((h | h) | h)
      · exact Or.inl h
      · exact Or.inr ⟨rc, List.mem_cons_self rc t, h.symm⟩
      · obtain ⟨b, hb, hbe⟩ := h
        exact Or.inr ⟨b, List.mem_cons_of_mem rc hb, hbe⟩
    · rintro (h | ⟨b, hb, hbe⟩)
      · exact Or.inl (Or.inl h)
      · rcases List.mem_cons.mp hb with hb | hb
        · subst hb
          exact Or.inl (Or.inr hbe.symm)
        · exact Or.inr ⟨b, hb, hbe⟩

theorem mem_ids_assembleProducts (rows : List (Product × Category)) (q : Int) :
    (∃ po ∈ assembleProducts rows, po.id = q) ↔ ∃ rc ∈ rows, rc.1.id = q := by
  rw [assembleProducts, mem_ids_assemble_aux]
  simp

theorem applyWhere_some (f : Product → Bool) (rows : List (Product × Category)) :
    applyWhere (some f) rows = rows.filter fun rc => f rc.1 := rfl

theorem applyWhere_none (rows : List (Product × Category)) :
    applyWhere none rows = rows := by
  simp [applyWhere]

theorem respHasProduct_true_iff (r : Response) (pid : Int) :
    respHasProduct r pid = true ↔ ∃ po ∈ respProducts r, po.id = pid := by
  simp [respHasProduct, List.any_eq_true]

theorem getProductsCore_catFilter_mem (db : DB) (hwf : db.WFcat) (C : List Int) (hC : C ≠ [])
    (pid : Int) (hP : ∃ p ∈ db.products, p.id = pid) :
    respHasProduct (getProductsCore db (some C) none) pid = true ↔
      ∀ cid ∈ C, ProductCategory.mk pid cid ∈ db.productCategories := by
  have hCl : 0 < C.length := List.length_pos.mpr hC
  obtain ⟨c0, hc0⟩ : ∃ c0, c0 ∈ C := by
    cases C with
    | nil => exact absurd rfl hC
    | cons x t => exact ⟨x, List.mem_cons_self x t⟩
  by_cases hM : (matchingIdsFor db C).length = 0
  · have hcore : getProductsCore db (some C) none =
        { statusCode := 200, message := "No products found", status := "success",
          data := RespData.productsOut [], setAuth := none } := by
      simp only [getProductsCore, Option.getD_some]
      rw [if_pos hCl, if_pos hM]
    rw [hcore]
    constructor
    · intro h
      simp [respHasProduct, respProducts] at h
    · intro hall
      exfalso
      have hpm : pid ∈ matchingIdsFor db C :=
        (mem_matchingIdsFor db C pid).mpr
          ⟨⟨⟨pid, c0⟩, hall c0 hc0, rfl, hc0⟩, hall⟩
      rw [List.length_eq_zero] at hM
      rw [hM] at hpm
      simp at hpm
  · have hcore : getProductsCore db (some C) none =
        { statusCode := 200, message := "Products fetched successfully", status := "success",
          data := RespData.productsOut (assembleProducts (applyWhere
            (some fun p => (matchingIdsFor db C).contains p.id) (joinRows db))),
          setAuth := none } := by
      simp only [getProductsCore, Option.getD_some, truthyStr]
      rw [if_pos hCl, if_neg hM]
      simp
    rw [hcore, respHasProduct_true_iff]
    simp only [respProducts]
    rw [mem_ids_assembleProducts, applyWhere_some]
    constructor
    · rintro ⟨rc, hrc, hid⟩
      rcases List.mem_filter.mp hrc with ⟨hjoin, hcont⟩
      have hpm : rc.1.id ∈ matchingIdsFor db C := List.elem_iff.mp hcont
      rw [hid] at hpm
      exact ((mem_matchingIdsFor db C pid).mp hpm).2
    · intro hall
      have hpm : pid ∈ matchingIdsFor db C :=
        (mem_matchingIdsFor db C pid).mpr
          ⟨⟨⟨pid, c0⟩, hall c0 hc0, rfl, hc0⟩, hall⟩
      obtain ⟨p, hp, hpid⟩ := hP
      obtain ⟨c, hcmem, hcid⟩ := hwf ⟨pid, c0⟩ (hall c0 hc0)
      refine ⟨(p, c), List.mem_filter.mpr ⟨?_, ?_⟩, hpid⟩
      · refine (mem_joinRows db p c).mpr ⟨hp, hcmem, ?_⟩
        have hpair : ProductCategory.mk p.id c.id = ProductCategory.mk pid c0 := by
          rw [hpid, hcid]
        rw [hpair]
        exact hall c0 hc0
      · simp only
        rw [hpid]
        exact List.elem_iff.mpr hpm

theorem getProductsCore_noFilter_mem (db : DB) (hwf : db.WFcat) (ns : Option String)
    (pid : Int) :
    respHasProduct (getProductsCore db none ns) pid = true ↔
      ∃ p ∈ db.products, p.id = pid ∧ (∃ a ∈ db.productCategories, a.productId = pid) ∧
        nameFilterOk ns p = true := by
  have hcore : getProductsCore db none ns =
      { statusCode := 200, message := "Products fetched successfully", status := "success",
        data := RespData.productsOut (assembleProducts (applyWhere
          (if truthyStr ns then some fun p => ilikeContains (ns.getD "") p.name else none)
          (joinRows db))),
        setAuth := none } := by
    simp only [getProductsCore, Option.getD_none, List.length_nil]
    norm_num
  rw [hcore, respHasProduct_true_iff]
  simp only [respProducts]
  rw [mem_ids_assembleProducts]
  by_cases hns : truthyStr ns = true
  · rw [if_pos hns, applyWhere_some]
    constructor
    · rintro ⟨rc, hrc, hid⟩
      obtain ⟨p, c⟩ := rc
      rcases List.mem_filter.mp hrc with ⟨hjoin, hcont⟩
      rcases (mem_joinRows db p c).mp hjoin with ⟨hp, hc, ha⟩
      refine ⟨p, hp, hid, ⟨⟨p.id, c.id⟩, ha, hid⟩, ?_⟩
      rw [nameFilterOk, if_pos hns]
      exact hcont
    · rintro ⟨p, hp, hpid, ⟨a, ha, hapid⟩, hnf⟩
      obtain ⟨c, hcmem, hcid⟩ := hwf a ha
      refine ⟨(p, c), List.mem_filter.mpr ⟨?_, ?_⟩, hpid⟩
      · refine (mem_joinRows db p c).mpr ⟨hp, hcmem, ?_⟩
        have hpair : ProductCategory.mk p.id c.id = a := by
          have : a = ProductCategory.mk a.productId a.categoryId := rfl
          rw [this, hpid, hapid, hcid]
        rw [hpair]
        exact ha
      · rw [nameFilterOk, if_pos hns] at hnf
        simp only
        exact hnf
  · rw [if_neg hns, applyWhere_none]
    constructor
    · rintro ⟨rc, hrc, hid⟩
      obtain ⟨p, c⟩ := rc
      rcases (mem_joinRows db p c).mp hrc with ⟨hp, hc, ha⟩
      refine ⟨p, hp, hid, ⟨⟨p.id, c.id⟩, ha, hid⟩, ?_⟩
      rw [nameFilterOk, if_neg hns]
    · rintro ⟨p, hp, hpid, ⟨a, ha, hapid⟩, hnf⟩
      obtain ⟨c, hcmem, hcid⟩ := hwf a ha
      refine ⟨(p, c), ?_, hpid⟩
      refine (mem_joinRows db p c).mpr ⟨hp, hcmem, ?_⟩
      have hpair : ProductCategory.mk p.id c.id = a := by
        have : a = ProductCategory.mk a.productId a.categoryId := rfl
        rw [this, hpid, hapid, hcid]
      rw [hpair]
      exact ha

theorem matchingIdsFor_congr (db : DB) (C C2 : List Int)
    (h1 : ∀ x ∈ C2, x ∈ C) (h2 : ∀ x ∈ C, x ∈ C2) :
    matchingIdsFor db C2 = matchingIdsFor db C := by
  have hcont : ∀ a : Int, C2.contains a = C.contains a := by
    intro a
    rw [Bool.eq_iff_iff]
    constructor
    · intro h
      exact List.elem_iff.mpr (h1 a (List.elem_iff.mp h))
    · intro h
      exact List.elem_iff.mpr (h2 a (List.elem_iff.mp h))
  have hall : ∀ s : List Int,
      (C2.all fun cid => s.contains cid) = C.all fun cid => s.contains cid := by
    intro s
    rw [Bool.eq_iff_iff]
    constructor
    · intro h
      exact List.all_eq_true.mpr fun cid hcid =>
        List.all_eq_true.mp h cid (h2 cid hcid)
    · intro h
      exact List.all_eq_true.mpr fun cid hcid =>
        List.all_eq_true.mp h cid (h1 cid hcid)
  simp only [matchingIdsFor]
  have hrows : (db.productCategories.filter fun a => C2.contains a.categoryId)
      = db.productCategories.filter fun a => C.contains a.categoryId :=
    List.filter_congr fun a _ => by rw [hcont]
  rw [hrows]
  congr 1
  exact List.filter_congr fun e _ => by rw [hall]

theorem getProductsCore_congr_catIds (db : DB) (C C2 : List Int)
    (h1 : ∀ x ∈ C2, x ∈ C) (h2 : ∀ x ∈ C, x ∈ C2) (ns : Option String) :
    getProductsCore db (some C2) ns = getProductsCore db (some C) ns := by
  have hlen : 0 < C2.length ↔ 0 < C.length := by
    rw [List.length_pos, List.length_pos]
    constructor
    · intro h h0
      rcases List.exists_mem_of_ne_nil C2 h with ⟨x, hx⟩
      rw [h0] at h1
      exact absurd (h1 x hx) (List.not_mem_nil x)
    · intro h h0
      rcases List.exists_mem_of_ne_nil C h with ⟨x, hx⟩
      rw [h0] at h2
      exact absurd (h2 x hx) (List.not_mem_nil x)
  simp only [getProductsCore, Option.getD_some]
  rw [matchingIdsFor_congr db C C2 h1 h2]
  exact if_congr hlen rfl rfl

theorem filter_id_eq_singleton (l : List Category) (c : Category)
    (hnd : (l.map Category.id).Nodup) (hc : c ∈ l) :
    (l.filter fun x => x.id = c.id) = [c] := by
  induction l with
  | nil => simp at hc
  | cons d rest ih =>
    simp only [List.map_cons, List.nodup_cons] at hnd
    rcases List.mem_cons.mp hc with h | h
    · subst h
      rw [List.filter_cons_of_pos (by simp)]
      have : rest.filter (fun x => x.id = c.id) = [] := by
        rw [List.filter_eq_nil_iff]
        intro a ha
        simp only [decide_eq_true_eq]
        intro hid
        exact hnd.1 (List.mem_map.mpr ⟨a, ha, hid⟩)
      rw [this]
    · have hne : ¬ d.id = c.id := by
        intro hid
        exact hnd.1 (by rw [hid]; exact List.mem_map.mpr ⟨c, h, rfl⟩)
      rw [List.filter_cons_of_neg (by simpa using hne)]
      exact ih hnd.2 h

theorem fetchCatsOf_ids (db1 : DB) (newP : Product) (cids : List Int)
    (old : List ProductCategory)
    (hassoc : db1.productCategories = old ++ cids.map fun cid => ProductCategory.mk newP.id cid)
    (hold : ∀ a ∈ old, ¬ a.productId = newP.id)
    (hprod : (db1.products.filter fun p => p.id = newP.id) = [newP])
    (hvalid : ∀ cid ∈ cids, ∃ c ∈ db1.categories, c.id = cid)
    (hnd : (db1.categories.map Category.id).Nodup) :
    (fetchCatsOf db1 newP.id).map (·.id) = cids := by
  have hmain : ∀ (cids2 : List Int), (∀ cid ∈ cids2, ∃ c ∈ db1.categories, c.id = cid) →
      (((cids2.map fun cid => ProductCategory.mk newP.id cid).flatMap fun a =>
        (db1.products.filter fun p => p.id = a.productId).flatMap fun _ =>
          (db1.categories.filter fun c => c.id = a.categoryId).map fun c =>
            ({ id := c.id, name := reformatCategoryNameResponse (some c.name) } :
              CategoryOut)).map (·.id)) = cids2 := by
    intro cids2
    induction cids2 with
    | nil => simp
    | cons cid rest ih =>
      intro hv
      obtain ⟨c, hcmem, hcid⟩ := hv cid (List.mem_cons_self cid rest)
      have hone : (db1.categories.filter fun x => x.id = cid) = [c] := by
        rw [← hcid]
        exact filter_id_eq_singleton db1.categories c hnd hcmem
      simp only [List.map_cons, List.flatMap_cons]
      rw [List.map_append]
      rw [ih fun x hx => hv x (List.mem_cons_of_mem cid hx)]
      simp only [hprod, hone]
      simp [hcid]
  have hfilter : (db1.productCategories.filter fun a => a.productId = newP.id) =
      cids.map fun cid => ProductCategory.mk newP.id cid := by
    rw [hassoc, List.filter_append]
    have h1 : (old.filter fun a => a.productId = newP.id) = [] := by
      rw [List.filter_eq_nil_iff]
      intro a ha
      simpa using hold a ha
    have h2 : ((cids.map fun cid => ProductCategory.mk newP.id cid).filter
        fun a => a.productId = newP.id) = cids.map fun cid => ProductCategory.mk newP.id cid := by
      rw [List.filter_eq_self]
      intro a ha
      rcases List.mem_map.mp ha with ⟨cid, _, heq⟩
      subst heq
      simp
    rw [h1, h2, List.nil_append]
  rw [fetchCatsOf, hfilter]
  exact hmain cids hvalid

theorem insertAssocRows_ok (cur : List ProductCategory) (cats : List Category)
    (prods : List Product) (rows : List ProductCategory)
    (h0 : ¬ rows.length = 0)
    (h1 : ∀ a ∈ rows, ∃ c ∈ cats, c.id = a.categoryId)
    (h2 : ∀ a ∈ rows, ∃ p ∈ prods, p.id = a.productId)
    (h3 : rows.Nodup) (h4 : ∀ a ∈ rows, a ∉ cur) :
    insertAssocRows cur cats prods rows = Except.ok (cur ++ rows) := by
  have hb1 : (rows.all fun a => cats.any fun c => c.id = a.categoryId) = true := by
    rw [List.all_eq_true]
    intro a ha
    rcases h1 a ha with ⟨c, hc, hcid⟩
    exact List.any_eq_true.mpr ⟨c, hc, by simp [hcid]⟩
  have hb2 : (rows.all fun a => prods.any fun p => p.id = a.productId) = true := by
    rw [List.all_eq_true]
    intro a ha
    rcases h2 a ha with ⟨p, hp, hpid⟩
    exact List.any_eq_true.mpr ⟨p, hp, by simp [hpid]⟩
  rw [insertAssocRows, if_neg h0, hb1, hb2, Bool.not_true]
  rw [if_neg Bool.false_ne_true, if_neg Bool.false_ne_true, if_pos ⟨h3, h4⟩]

theorem editUpdateRow_id (dbnow : Int) (id : Int) (name : Option String)
    (price : Option Int) (p : Product) :
    (editUpdateRow dbnow id name price p).id = p.id := by
  rw [editUpdateRow]
  by_cases h : p.id = id <;> simp [h]

theorem find?_updated_products (db : DB) (id : Int) (name : Option String)
    (price : Option Int) (p0 : Product) (hp0 : p0 ∈ db.products) (hp0id : p0.id = id) :
    ∃ product, (db.products.map (editUpdateRow db.now id name price)).find?
        (fun p => p.id = id) = some product ∧ product.id = id := by
  have hmem : editUpdateRow db.now id name price p0 ∈
      db.products.map (editUpdateRow db.now id name price) :=
    List.mem_map.mpr ⟨p0, hp0, rfl⟩
  have hid : (editUpdateRow db.now id name price p0).id = id := by
    rw [editUpdateRow_id]
    exact hp0id
  have hsome : ((db.products.map (editUpdateRow db.now id name price)).find?
      (fun p => p.id = id)).isSome := by
    rw [List.find?_isSome]
    exact ⟨_, hmem, by simp [hid]⟩
  cases hfq : (db.products.map (editUpdateRow db.now id name price)).find?
      (fun p => p.id = id) with
  | none =>
    rw [hfq] at hsome
    simp at hsome
  | some product =>
    have hprop := List.find?_some hfq
    exact ⟨product, rfl, by simpa using hprop⟩

theorem editProduct_success_eq (db : DB) (id : Int) (name : Option String) (price : Option Int)
    (l : List Int) (product : Product)
    (hne : ¬ (db.products.filter fun p => p.id = id).length = 0)
    (hlpos : 0 < l.length)
    (hfq : (db.products.map (editUpdateRow db.now id name price)).find? (fun p => p.id = id) =
      some product)
    (hins : insertAssocRows (assocsWithout db id) db.categories
        (db.products.map (editUpdateRow db.now id name price))
        ((validCategoryIdsFor db l).map fun cid => { productId := id, categoryId := cid }) =
      Except.ok (assocsWithout db id ++
        (validCategoryIdsFor db l).map fun cid => { productId := id, categoryId := cid })) :
    editProduct db id name price (some l) =
      (Except.ok { statusCode := 200, message := "Product updated successfully",
                   status := "success",
                   data := RespData.productOut
                     { id := product.id, name := product.name, price := product.price,
                       createdAt := some product.createdAt, updatedAt := some product.updatedAt,
                       categories := fetchCatsOf
                         { db with
                           products := db.products.map (editUpdateRow db.now id name price),
                           productCategories := assocsWithout db id ++
                             (validCategoryIdsFor db l).map fun cid =>
                               { productId := id, categoryId := cid } } id },
                   setAuth := none },
       { db with
         products := db.products.map (editUpdateRow db.now id name price),
         productCategories := assocsWithout db id ++
           (validCategoryIdsFor db l).map fun cid => { productId := id, categoryId := cid } }) := by
  simp only [editProduct]
  rw [if_neg hne, hfq, if_pos hlpos, hins]

theorem editProduct_none_assocs (db : DB) (id : Int) (name : Option String)
    (price : Option Int) :
    (editProduct db id name price none).2.productCategories = db.productCategories := by
  simp only [editProduct]
  split
  · rfl
  · split
    · rfl
    · rfl

theorem editProduct_emptyList_assocs (db : DB) (id : Int) (name : Option String)
    (price : Option Int) :
    (editProduct db id name price (some [])).2.productCategories = db.productCategories := by
  simp only [editProduct]
  split
  · rfl
  · split
    · rfl
    · rfl

theorem addProduct_conflict_eq (db : DB) (name : String) (price : Int)
    (categoryIds : List Int)
    (h : 0 < (db.products.filter fun p => p.name = name).length) :
    addProduct db name price categoryIds =
      (Except.ok { statusCode := 400, message := "Product already exists", status := "error",
                   data := RespData.noData, setAuth := none }, db) := by
  simp only [addProduct]
  rw [if_pos h]

theorem addProduct_catNotFound_eq (db : DB) (name : String) (price : Int)
    (categoryIds : List Int)
    (hfresh : ¬ 0 < (db.products.filter fun p => p.name = name).length)
    (hgate : (db.categories.filter fun c => categoryIds.contains c.id).length = 0) :
    addProduct db name price categoryIds =
      (Except.ok { statusCode := 400, message := "Category not found", status := "error",
                   data := RespData.noData, setAuth := none }, db) := by
  simp only [addProduct]
  rw [if_neg hfresh, if_pos hgate]

theorem addProduct_insert_error_eq (db : DB) (name : String) (price : Int)
    (categoryIds : List Int) (e : JsErr)
    (hfresh : ¬ 0 < (db.products.filter fun p => p.name = name).length)
    (hgate : ¬ (db.categories.filter fun c => categoryIds.contains c.id).length = 0)
    (hins : insertAssocRows db.productCategories db.categories
        (db.products ++ [{ id := db.nextProductId, name := name, price := price,
                           createdAt := db.now, updatedAt := db.now }])
        (categoryIds.map fun cid => { productId := db.nextProductId, categoryId := cid }) =
      Except.error e) :
    addProduct db name price categoryIds = (Except.error e, db) := by
  simp only [addProduct]
  rw [if_neg hfresh, if_neg hgate, hins]

theorem addProduct_success_eq (db : DB) (name : String) (price : Int)
    (categoryIds : List Int)
    (hfresh : ¬ 0 < (db.products.filter fun p => p.name = name).length)
    (hgate : ¬ (db.categories.filter fun c => categoryIds.contains c.id).length = 0)
    (hins : insertAssocRows db.productCategories db.categories
        (db.products ++ [{ id := db.nextProductId, name := name, price := price,
                           createdAt := db.now, updatedAt := db.now }])
        (categoryIds.map fun cid => { productId := db.nextProductId, categoryId := cid }) =
      Except.ok (db.productCategories ++
        categoryIds.map fun cid => { productId := db.nextProductId, categoryId := cid })) :
    addProduct db name price categoryIds =
      (Except.ok { statusCode := 200, message := "Product added successfully",
                   status := "success",
                   data := RespData.productOut
                     { id := db.nextProductId, name := name, price := price,
                       createdAt := some db.now, updatedAt := some db.now,
                       categories := fetchCatsOf
                         { db with
                           products := db.products ++
                             [{ id := db.nextProductId, name := name, price := price,
                                createdAt := db.now, updatedAt := db.now }],
                           productCategories := db.productCategories ++
                             categoryIds.map fun cid =>
                               { productId := db.nextProductId, categoryId := cid },
                           nextProductId := db.nextProductId + 1 } db.nextProductId },
                   setAuth := some (setAuthCookies db.nextProductId) },
       { db with
         products := db.products ++
           [{ id := db.nextProductId, name := name, price := price,
              createdAt := db.now, updatedAt := db.now }],
         productCategories := db.productCategories ++
           categoryIds.map fun cid => { productId := db.nextProductId, categoryId := cid },
         nextProductId := db.nextProductId + 1 }) := by
  simp only [addProduct]
  rw [if_neg hfresh, if_neg hgate, hins]

/-- A one-product, one-category sample state used by the concrete witnesses. -/
def dbOne : DB :=
  { products := [{ id := 1, name := "apple", price := 5, createdAt := 2, updatedAt := 2 }],
    categories := [{ id := 1, name := "fruits", createdAt := 0 }],
    productCategories := [{ productId := 1, categoryId := 1 }],
    nextProductId := 2, nextCategoryId := 2, now := 9 }

/-- Two products in distinct categories whose names share the substring "apple". -/
def dbPair : DB :=
  { products := [{ id := 1, name := "apple", price := 5, createdAt := 2, updatedAt := 2 },
                 { id := 2, name := "pineapple", price := 7, createdAt := 1, updatedAt := 1 }],
    categories := [{ id := 1, name := "fruits", createdAt := 0 },
                   { id := 2, name := "snacks", createdAt := 0 }],
    productCategories := [{ productId := 1, categoryId := 1 },
                          { productId := 2, categoryId := 2 }],
    nextProductId := 3, nextCategoryId := 3, now := 10 }

/-- A state holding one product that has no category association. -/
def dbLonely : DB :=
  { products := [{ id := 1, name := "widget", price := 5, createdAt := 0, updatedAt := 0 }],
    categories := [], productCategories := [],
    nextProductId := 2, nextCategoryId := 1, now := 0 }

/-- C1: for every non-empty required category id list C and product id present in
the store, the category-filtered lookup lists the product iff the product has
an association row for every id in C (AND semantics across all required
categories); and replacing C by any list with the same members — in
particular one with duplicated ids — yields the identical response. -/
theorem spec_c1_and_filter (db : DB) (hwf : db.WFcat) (C : List Int) (hC : C ≠ [])
    (pid : Int) (hP : ∃ p ∈ db.products, p.id = pid) :
    (respHasProduct (getProductsCore db (some C) none) pid = true ↔
      ∀ cid ∈ C, ProductCategory.mk pid cid ∈ db.productCategories)
    ∧ ∀ C2 : List Int, (∀ x ∈ C2, x ∈ C) → (∀ x ∈ C, x ∈ C2) →
        getProductsCore db (some C2) none = getProductsCore db (some C) none :=
  ⟨getProductsCore_catFilter_mem db hwf C hC pid hP,
   fun C2 ha hb => getProductsCore_congr_catIds db C C2 ha hb none⟩

/-- Witness for C1 at a concrete database and filter. -/
theorem spec_c1_and_filter_witness :
    respHasProduct (getProductsCore dbOne (some [1]) none) 1 = true
    ∧ getProductsCore dbOne (some [1, 1]) none = getProductsCore dbOne (some [1]) none := by
  have h := spec_c1_and_filter dbOne (by decide) [1] (by decide) 1 (by decide)
  exact ⟨h.1.mpr (by decide), h.2 [1, 1] (by decide) (by decide)⟩

/-- C2 as stated is false: a product with no association rows is dropped from the
unfiltered listing by the inner joins, so not every product in the store is
returned. -/
theorem spec_c2_counterexample :
    (∃ p ∈ dbLonely.products, p.id = 1)
    ∧ respHasProduct (getProductsCore dbLonely none none) 1 = false := by
  exact ⟨by decide, by decide⟩

/-- C2 amended: with an empty or absent category filter, a product id is listed
iff some product row carries it, the product has at least one association
row, and the optional case-insensitive name-substring filter (the only other
restriction) passes. -/
theorem spec_c2_amended (db : DB) (hwf : db.WFcat) (ns : Option String) (pid : Int) :
    respHasProduct (getProductsCore db none ns) pid = true ↔
      ∃ p ∈ db.products, p.id = pid ∧ (∃ a ∈ db.productCategories, a.productId = pid) ∧
        nameFilterOk ns p = true :=
  getProductsCore_noFilter_mem db hwf ns pid

/-- Witness for C2's amended statement at a concrete database. -/
theorem spec_c2_amended_witness :
    respHasProduct (getProductsCore dbOne none none) 1 = true :=
  (spec_c2_amended dbOne (by decide) none 1).mpr (by decide)

/-- C3: on a concrete state, supplying both a category filter and a name search
returns product 2 although it has no association with required category 1 —
the later `.where(ilike(...))` call replaces the category `.where(...)` clause
— while the same category filter without a name search correctly excludes it. -/
theorem spec_c3_displacement :
    respHasProduct (getProductsCore dbPair (some [1]) (some "apple")) 2 = true
    ∧ (ProductCategory.mk 2 1 ∉ dbPair.productCategories)
    ∧ respHasProduct (getProductsCore dbPair (some [1]) none) 2 = false := by
  exact ⟨by decide, by decide, by decide⟩

/-- C6: editProduct on an id that matches no product answers the 404 "Product not
found" error response and returns the state completely unchanged. -/
theorem spec_c6_edit_not_found (db : DB) (id : Int) (name : Option String)
    (price : Option Int) (categoryIds : Option (List Int))
    (h : ∀ p ∈ db.products, p.id ≠ id) :
    editProduct db id name price categoryIds =
      (Except.ok { statusCode := 404, message := "Product not found", status := "error",
                   data := RespData.noData, setAuth := none }, db) := by
  have hfil : (db.products.filter fun p => p.id = id) = [] := by
    rw [List.filter_eq_nil_iff]
    intro p hp
    simpa using h p hp
  simp [editProduct, hfil]

/-- Witness for C6 at a concrete database. -/
theorem spec_c6_edit_not_found_witness :
    editProduct dbOne 99 none none none =
      (Except.ok { statusCode := 404, message := "Product not found", status := "error",
                   data := RespData.noData, setAuth := none }, dbOne) :=
  spec_c6_edit_not_found dbOne 99 none none none (by decide)

/-- C7 as stated is false at the input "a ": the input has a single
whitespace-separated token, so the claim demands the lowercased trimmed
result "a", but the code takes the multi-piece split branch and returns
"a_" — String.trim cannot remove the underscore the join just created. -/
theorem spec_c7_counterexample :
    specToStorageForm (some "a ") = some "a"
    ∧ reformatCategoryNameInput (some "a ") = some "a_"
    ∧ reformatCategoryNameInput (some "a ") ≠ specToStorageForm (some "a ") := by
  exact ⟨by decide, by decide, by decide⟩

/-- C7 amended: toStorageForm lower-cases its input; when the lowered input
contains a space character it replaces every space by an underscore and then
applies String.trim (which strips whitespace only, so underscores produced
from surrounding spaces remain); otherwise it returns the lowercased input
unchanged (no trimming); null or empty input yields null. -/
theorem spec_c7_amended : ∀ s : String, s ≠ "" →
    reformatCategoryNameInput none = none
    ∧ reformatCategoryNameInput (some "") = none
    ∧ reformatCategoryNameInput (some s) =
        some (if ' ' ∈ (jsToLower s).data then
          ⟨jsTrimList ((jsToLower s).data.map fun x => if x = ' ' then '_' else x)⟩
        else jsToLower s) := by
  intro s hs
  refine ⟨rfl, rfl, ?_⟩
  simp only [reformatCategoryNameInput]
  rw [if_neg hs]
  by_cases hsp : ' ' ∈ (jsToLower s).data
  · rw [if_pos ((two_le_splitCharList_iff ' ' (jsToLower s).data).mpr hsp), if_pos hsp,
      joinChar_splitCharList]
  · rw [if_neg (fun h => hsp ((two_le_splitCharList_iff ' ' (jsToLower s).data).mp h)),
      if_neg hsp]

/-- Witness for C7's amended statement at a concrete input. -/
theorem spec_c7_amended_witness :
    ("Category Name" : String) ≠ ""
    ∧ reformatCategoryNameInput (some "Category Name") =
      some (if ' ' ∈ (jsToLower "Category Name").data then
        (⟨jsTrimList ((jsToLower "Category Name").data.map fun x =>
          if x = ' ' then '_' else x)⟩ : String)
      else jsToLower "Category Name") :=
  ⟨by decide, (spec_c7_amended "Category Name" (by decide)).2.2⟩

/-- C8: the three concrete formatter equations hold:
toDisplayForm (toStorageForm "Category Name") is "category name",
toStorageForm "Category" is "category", and toStorageForm null is null. -/
theorem spec_c8_roundtrip :
    reformatCategoryNameResponse (reformatCategoryNameInput (some "Category Name")) =
      some "category name"
    ∧ reformatCategoryNameInput (some "Category") = some "category"
    ∧ reformatCategoryNameInput none = none := by
  exact ⟨by decide, by decide, rfl⟩

/-- C9: a categoryIds query value that is present but not valid JSON — the string
"abc" — makes getProducts throw the JSON.parse SyntaxError before any JSON
response is produced, for every database state and name filter: the handler is
not total over its query-string interface. -/
theorem spec_c9_bad_json (db : DB) (ns : Option String) :
    getProducts db (some "abc") ns = (Except.error JsErr.badJson, db) := by
  have hparse : parseJson "abc" = none := by decide
  simp only [getProducts, Option.getD_some]
  rw [if_pos (by decide : truthyStr (some "abc") = true), hparse]

/-- C4 as stated is false when no supplied id resolves to an existing category:
editing product 1 (currently associated with category 1) with categoryIds
equal to the single unknown id 99 does not delete the prior associations and
insert nothing — the insert of an empty values list throws, the transaction
rolls back, and the prior association row survives. -/
theorem spec_c4_counterexample :
    editProduct dbOne 1 none none (some [99]) = (Except.error JsErr.emptyInsert, dbOne)
    ∧ ProductCategory.mk 1 1 ∈ dbOne.productCategories := by
  exact ⟨rfl, by decide⟩

/-- C4 amended: for an existing product and a non-empty supplied id list of which
at least one id resolves to an existing category, editProduct succeeds; the
new association table keeps exactly the other products' rows and holds, for
the edited product, precisely one row per supplied id that resolves (full
replacement, not merge); consequently a lookup filtered by any id outside
that resolving set — in particular a previously associated, now removed
category — excludes the product; and when no category list is supplied the
associations are untouched.  (When the list is non-empty but no id resolves,
the insert of the empty validated list throws and the transaction rolls
back, see the counterexample.) -/
theorem spec_c4_amended (db : DB) (hwf : db.WFcat) (hnd : db.WFcatIds)
    (id : Int) (name : Option String) (price : Option Int) (l : List Int)
    (hex : ∃ p ∈ db.products, p.id = id)
    (hvalid : ∃ cid ∈ l, ∃ c ∈ db.categories, c.id = cid) :
    (∃ r : Response, (editProduct db id name price (some l)).1 = Except.ok r
        ∧ r.status = "success" ∧ r.message = "Product updated successfully")
    ∧ (∀ pid2 cid : Int,
        ProductCategory.mk pid2 cid ∈
            (editProduct db id name price (some l)).2.productCategories ↔
          ((¬ pid2 = id ∧ ProductCategory.mk pid2 cid ∈ db.productCategories)
            ∨ (pid2 = id ∧ cid ∈ l ∧ ∃ c ∈ db.categories, c.id = cid)))
    ∧ (∀ cid : Int, ¬ (cid ∈ l ∧ ∃ c ∈ db.categories, c.id = cid) →
        respHasProduct (getProductsCore (editProduct db id name price (some l)).2
          (some [cid]) none) id = false)
    ∧ (∀ n2 : Option String, ∀ p2 : Option Int,
        (editProduct db id n2 p2 none).2.productCategories = db.productCategories) := by
  obtain ⟨p0, hp0, hp0id⟩ := hex
  obtain ⟨cid0, hcid0, c0, hc0, hc0id⟩ := hvalid
  have hne : ¬ (db.products.filter fun p => p.id = id).length = 0 := by
    intro h0
    rw [List.length_eq_zero] at h0
    have := List.filter_eq_nil_iff.mp h0 p0 hp0
    simp [hp0id] at this
  have hlpos : 0 < l.length := by
    rw [List.length_pos]
    intro h0
    rw [h0] at hcid0
    simp at hcid0
  obtain ⟨product, hfq, hprodid⟩ := find?_updated_products db id name price p0 hp0 hp0id
  have hvc_mem : ∀ v : Int, v ∈ validCategoryIdsFor db l ↔
      (v ∈ l ∧ ∃ c ∈ db.categories, c.id = v) := by
    intro v
    unfold validCategoryIdsFor
    constructor
    · intro hv
      rcases List.mem_map.mp hv with ⟨c, hcmem, hcv⟩
      rcases List.mem_filter.mp hcmem with ⟨hc1, hc2⟩
      subst hcv
      exact ⟨List.elem_iff.mp hc2, ⟨c, hc1, rfl⟩⟩
    · rintro ⟨hvl, c, hc, hcid⟩
      subst hcid
      exact List.mem_map.mpr ⟨c, List.mem_filter.mpr ⟨hc, List.elem_iff.mpr hvl⟩, rfl⟩
  have hvc_nodup : (validCategoryIdsFor db l).Nodup := by
    have hsub : List.Sublist ((db.categories.filter fun c => l.contains c.id).map (·.id))
        (db.categories.map Category.id) := List.Sublist.map _ (List.filter_sublist _)
    exact List.Sublist.nodup hsub hnd
  have hins : insertAssocRows (assocsWithout db id) db.categories
      (db.products.map (editUpdateRow db.now id name price))
      ((validCategoryIdsFor db l).map fun cid => { productId := id, categoryId := cid }) =
      Except.ok (assocsWithout db id ++
        (validCategoryIdsFor db l).map fun cid => { productId := id, categoryId := cid }) := by
    apply insertAssocRows_ok
    · rw [List.length_map, List.length_eq_zero]
      intro h0
      have : cid0 ∈ validCategoryIdsFor db l := (hvc_mem cid0).mpr ⟨hcid0, c0, hc0, hc0id⟩
      rw [h0] at this
      simp at this
    · intro a ha
      rcases List.mem_map.mp ha with ⟨v, hv, heq⟩
      subst heq
      rcases (hvc_mem v).mp hv with ⟨_, c, hc, hcid⟩
      exact ⟨c, hc, hcid⟩
    · intro a ha
      rcases List.mem_map.mp ha with ⟨v, hv, heq⟩
      subst heq
      refine ⟨editUpdateRow db.now id name price p0, List.mem_map.mpr ⟨p0, hp0, rfl⟩, ?_⟩
      rw [editUpdateRow_id]
      exact hp0id
    · refine List.Nodup.map ?_ hvc_nodup
      intro x y hxy
      injection hxy
    · intro a ha hacur
      rcases List.mem_map.mp ha with ⟨v, hv, heq⟩
      subst heq
      rcases List.mem_filter.mp hacur with ⟨_, hbne⟩
      simp at hbne
  have hedit := editProduct_success_eq db id name price l product hne hlpos hfq hins
  have hst : (editProduct db id name price (some l)).2 =
      { db with
        products := db.products.map (editUpdateRow db.now id name price),
        productCategories := assocsWithout db id ++
          (validCategoryIdsFor db l).map fun cid => { productId := id, categoryId := cid } } := by
    rw [hedit]
  have hmem_iff : ∀ pid2 cid : Int,
      ProductCategory.mk pid2 cid ∈
          (editProduct db id name price (some l)).2.productCategories ↔
        ((¬ pid2 = id ∧ ProductCategory.mk pid2 cid ∈ db.productCategories)
          ∨ (pid2 = id ∧ cid ∈ l ∧ ∃ c ∈ db.categories, c.id = cid)) := by
    intro pid2 cid
    rw [hst]
    show ProductCategory.mk pid2 cid ∈ assocsWithout db id ++
        (validCategoryIdsFor db l).map (fun cid => { productId := id, categoryId := cid }) ↔ _
    rw [List.mem_append]
    constructor
    · rintro (h | h)
      · rcases List.mem_filter.mp h with ⟨hmem, hbne⟩
        refine Or.inl ⟨?_, hmem⟩
        simpa using hbne
      · rcases List.mem_map.mp h with ⟨v, hv, heq⟩
        injection heq with h1 h2
        subst h1
        subst h2
        exact Or.inr ⟨rfl, (hvc_mem v).mp hv⟩
    · rintro (⟨hne2, hmem⟩ | ⟨heq, hl, c, hc, hcid⟩)
      · refine Or.inl (List.mem_filter.mpr ⟨hmem, ?_⟩)
        simpa using hne2
      · subst heq
        exact Or.inr (List.mem_map.mpr ⟨cid, (hvc_mem cid).mpr ⟨hl, c, hc, hcid⟩, rfl⟩)
  refine ⟨⟨_, by rw [hedit], rfl, rfl⟩, hmem_iff, ?_, ?_⟩
  · intro cid hno
    have hwf2 : (editProduct db id name price (some l)).2.WFcat := by
      rw [hst]
      intro a ha
      rcases List.mem_append.mp ha with h | h
      · exact hwf a (List.mem_filter.mp h).1
      · rcases List.mem_map.mp h with ⟨v, hv, heq⟩
        subst heq
        rcases (hvc_mem v).mp hv with ⟨_, c, hc, hcid⟩
        exact ⟨c, hc, hcid⟩
    have hP2 : ∃ p ∈ (editProduct db id name price (some l)).2.products, p.id = id := by
      rw [hst]
      refine ⟨editUpdateRow db.now id name price p0, List.mem_map.mpr ⟨p0, hp0, rfl⟩, ?_⟩
      rw [editUpdateRow_id]
      exact hp0id
    have hchar := getProductsCore_catFilter_mem (editProduct db id name price (some l)).2
      hwf2 [cid] (by simp) id hP2
    apply eq_false_of_ne_true
    intro htrue
    have hallmem := hchar.mp htrue cid (List.mem_singleton.mpr rfl)
    rcases (hmem_iff id cid).mp hallmem with ⟨hne2, _⟩ | ⟨_, hl, hcc⟩
    · exact hne2 rfl
    · exact hno ⟨hl, hcc⟩
  · intro n2 p2
    exact editProduct_none_assocs db id n2 p2

/-- Witness for C4's amended statement: editing product 1 of dbPair (previously in
category 1) to category list [2] succeeds, and the lookup filtered by the
removed category 1 no longer returns the product. -/
theorem spec_c4_amended_witness :
    (∃ r : Response, (editProduct dbPair 1 none none (some [2])).1 = Except.ok r
        ∧ r.status = "success" ∧ r.message = "Product updated successfully")
    ∧ respHasProduct (getProductsCore (editProduct dbPair 1 none none (some [2])).2
        (some [1]) none) 1 = false := by
  have h := spec_c4_amended dbPair (by decide) (by decide) 1 none none [2]
    (by decide) (by decide)
  exact ⟨h.1, h.2.2.1 1 (by decide)⟩

/-- C5 as stated is false: with the partially valid id list [1, 99] (category 1
exists, 99 does not) the gate passes, but inserting association rows taken
from the original supplied list violates the category foreign key; the
transaction aborts and rolls back instead of succeeding with an association
row for id 99. -/
theorem spec_c5_counterexample :
    addProduct dbOne "mango" 3 [1, 99] = (Except.error JsErr.fkViolation, dbOne)
    ∧ ProductCategory.mk 2 99 ∉ (addProduct dbOne "mango" 3 [1, 99]).2.productCategories := by
  exact ⟨rfl, by decide⟩

/-- C5 amended: with a fresh product name, (gate) addProduct answers the 400
"Category not found" response iff none of the supplied ids resolves to an
existing category — a single valid id passes the gate; (success) when every
supplied id resolves (the ids distinct), the transaction inserts the product
row and one association row per supplied id and the response carries the
product with its full category id list and fresh auth cookies; (mixed) when
at least one id resolves and at least one does not, the insert built from the
ORIGINAL supplied list violates the category foreign key, so the whole
transaction is rolled back and the handler throws — there is no successful
run that stores an association for an unresolved id. -/
theorem spec_c5_amended (db : DB) (name : String) (price : Int) (cids : List Int)
    (hfresh : ∀ p ∈ db.products, p.name ≠ name)
    (hwfp : db.WFprod) (hbound : db.WFfresh) (hnd : db.WFcatIds) :
    (addProduct db name price cids =
        (Except.ok { statusCode := 400, message := "Category not found", status := "error",
                     data := RespData.noData, setAuth := none }, db) ↔
      ∀ cid ∈ cids, ∀ c ∈ db.categories, c.id ≠ cid)
    ∧ ((∀ cid ∈ cids, ∃ c ∈ db.categories, c.id = cid) → cids ≠ [] → cids.Nodup →
        ∃ po : ProductOut,
          (addProduct db name price cids).1 = Except.ok
            { statusCode := 200, message := "Product added successfully", status := "success",
              data := RespData.productOut po,
              setAuth := some (setAuthCookies db.nextProductId) }
          ∧ po.id = db.nextProductId ∧ po.name = name ∧ po.price = price
          ∧ po.categories.map (·.id) = cids
          ∧ (addProduct db name price cids).2.products =
              db.products ++ [{ id := db.nextProductId, name := name, price := price,
                                createdAt := db.now, updatedAt := db.now }]
          ∧ (addProduct db name price cids).2.productCategories =
              db.productCategories ++
                cids.map fun cid => { productId := db.nextProductId, categoryId := cid })
    ∧ ((∃ cid ∈ cids, ∃ c ∈ db.categories, c.id = cid) →
        (∃ cid ∈ cids, ∀ c ∈ db.categories, c.id ≠ cid) →
        addProduct db name price cids = (Except.error JsErr.fkViolation, db)) := by
  have hfilname : (db.products.filter fun p => p.name = name) = [] := by
    rw [List.filter_eq_nil_iff]
    intro p hp
    simpa using hfresh p hp
  have hfresh0 : ¬ 0 < (db.products.filter fun p => p.name = name).length := by
    rw [hfilname]
    simp
  have hgate_iff : (db.categories.filter fun c => cids.contains c.id).length = 0 ↔
      ∀ cid ∈ cids, ∀ c ∈ db.categories, c.id ≠ cid := by
    rw [List.length_eq_zero, List.filter_eq_nil_iff]
    constructor
    · intro h cid hcid c hc hcc
      refine h c hc ?_
      rw [hcc]
      exact List.elem_iff.mpr hcid
    · intro h c hc hcont
      exact h c.id (List.elem_iff.mp hcont) c hc rfl
  have hold_not_new : ∀ a ∈ db.productCategories, ¬ a.productId = db.nextProductId := by
    intro a ha heq
    rcases hwfp a ha with ⟨p, hp, hpid⟩
    have := hbound p hp
    rw [hpid, heq] at this
    exact lt_irrefl _ this
  refine ⟨?_, ?_, ?_⟩
  · constructor
    · intro heq
      by_contra hnot
      push_neg at hnot
      obtain ⟨cid0, hcid0, c0, hc0, hc0id⟩ := hnot
      have hgate : ¬ (db.categories.filter fun c => cids.contains c.id).length = 0 := by
        intro h0
        exact (hgate_iff.mp h0) cid0 hcid0 c0 hc0 hc0id
      cases hcase : insertAssocRows db.productCategories db.categories
          (db.products ++ [{ id := db.nextProductId, name := name, price := price,
                             createdAt := db.now, updatedAt := db.now }])
          (cids.map fun cid => { productId := db.nextProductId, categoryId := cid }) with
      | error e =>
        rw [addProduct_insert_error_eq db name price cids e hfresh0 hgate hcase] at heq
        simp at heq
      | ok assocs1 =>
        simp only [addProduct] at heq
        rw [if_neg hfresh0, if_neg hgate, hcase] at heq
        simp [Response.mk.injEq] at heq
    · intro hnone
      exact addProduct_catNotFound_eq db name price cids hfresh0 (hgate_iff.mpr hnone)
  · intro hall hne hnodup
    obtain ⟨cid0, hcid0⟩ : ∃ cid0, cid0 ∈ cids := by
      cases cids with
      | nil => exact absurd rfl hne
      | cons x t => exact ⟨x, List.mem_cons_self x t⟩
    obtain ⟨c0, hc0, hc0id⟩ := hall cid0 hcid0
    have hgate : ¬ (db.categories.filter fun c => cids.contains c.id).length = 0 := by
      intro h0
      exact (hgate_iff.mp h0) cid0 hcid0 c0 hc0 hc0id
    have hins : insertAssocRows db.productCategories db.categories
        (db.products ++ [{ id := db.nextProductId, name := name, price := price,
                           createdAt := db.now, updatedAt := db.now }])
        (cids.map fun cid => { productId := db.nextProductId, categoryId := cid }) =
        Except.ok (db.productCategories ++
          cids.map fun cid => { productId := db.nextProductId, categoryId := cid }) := by
      apply insertAssocRows_ok
      · rw [List.length_map, List.length_eq_zero]
        exact hne
      · intro a ha
        rcases List.mem_map.mp ha with ⟨v, hv, heqa⟩
        subst heqa
        exact hall v hv
      · intro a ha
        rcases List.mem_map.mp ha with ⟨v, hv, heqa⟩
        subst heqa
        exact ⟨{ id := db.nextProductId, name := name, price := price,
                 createdAt := db.now, updatedAt := db.now },
               List.mem_append.mpr (Or.inr (List.mem_singleton.mpr rfl)), rfl⟩
      · refine List.Nodup.map ?_ hnodup
        intro x y hxy
        injection hxy
      · intro a ha hacur
        rcases List.mem_map.mp ha with ⟨v, hv, heqa⟩
        subst heqa
        exact hold_not_new _ hacur rfl
    have haddeq := addProduct_success_eq db name price cids hfresh0 hgate hins
    have hcats : (fetchCatsOf
        { db with
          products := db.products ++
            [{ id := db.nextProductId, name := name, price := price,
               createdAt := db.now, updatedAt := db.now }],
          productCategories := db.productCategories ++
            cids.map fun cid => { productId := db.nextProductId, categoryId := cid },
          nextProductId := db.nextProductId + 1 } db.nextProductId).map (·.id) = cids := by
      refine fetchCatsOf_ids _
        { id := db.nextProductId, name := name, price := price,
          createdAt := db.now, updatedAt := db.now } cids db.productCategories rfl
        hold_not_new ?_ hall hnd
      rw [List.filter_append]
      have h1 : (db.products.filter fun p => p.id = db.nextProductId) = [] := by
        rw [List.filter_eq_nil_iff]
        intro p hp
        have := hbound p hp
        simp only [decide_eq_true_eq]
        intro heqp
        rw [heqp] at this
        exact lt_irrefl _ this
      rw [h1, List.nil_append, List.filter_eq_self]
      intro p hp
      rw [List.mem_singleton] at hp
      subst hp
      simp
    refine ⟨_, by rw [haddeq], rfl, rfl, rfl, hcats, by rw [haddeq], by rw [haddeq]⟩
  · intro hsome hbad
    obtain ⟨cid0, hcid0, c0, hc0, hc0id⟩ := hsome
    have hgate : ¬ (db.categories.filter fun c => cids.contains c.id).length = 0 := by
      intro h0
      exact (hgate_iff.mp h0) cid0 hcid0 c0 hc0 hc0id
    have hinserr : insertAssocRows db.productCategories db.categories
        (db.products ++ [{ id := db.nextProductId, name := name, price := price,
                           createdAt := db.now, updatedAt := db.now }])
        (cids.map fun cid => { productId := db.nextProductId, categoryId := cid }) =
        Except.error JsErr.fkViolation := by
      have h0 : ¬ (cids.map fun cid =>
          ProductCategory.mk db.nextProductId cid).length = 0 := by
        rw [List.length_map, List.length_eq_zero]
        intro h0
        rw [h0] at hcid0
        simp at hcid0
      have hallfalse : ((cids.map fun cid => ProductCategory.mk db.nextProductId cid).all
          fun a => db.categories.any fun c => c.id = a.categoryId) = false := by
        apply eq_false_of_ne_true
        intro htrue
        obtain ⟨cidb, hcidb, hbadc⟩ := hbad
        have hm := List.all_eq_true.mp htrue (ProductCategory.mk db.nextProductId cidb)
          (List.mem_map.mpr ⟨cidb, hcidb, rfl⟩)
        rcases List.any_eq_true.mp hm with ⟨c, hc, hcc⟩
        simp only [decide_eq_true_eq] at hcc
        exact hbadc c hc hcc
      rw [insertAssocRows, if_neg h0, hallfalse, Bool.not_false, if_pos rfl]
    exact addProduct_insert_error_eq db name price cids JsErr.fkViolation
      hfresh0 hgate hinserr

/-- Witness for C5's amended statement: a wholly invalid list is rejected by the
gate; a wholly valid list succeeds with the matching association rows. -/
theorem spec_c5_amended_witness :
    addProduct dbOne "mango" 3 [99] =
      (Except.ok { statusCode := 400, message := "Category not found", status := "error",
                   data := RespData.noData, setAuth := none }, dbOne)
    ∧ ∃ po : ProductOut,
        (addProduct dbOne "mango" 3 [1]).1 = Except.ok
          { statusCode := 200, message := "Product added successfully", status := "success",
            data := RespData.productOut po,
            setAuth := some (setAuthCookies dbOne.nextProductId) }
        ∧ po.categories.map (·.id) = [1] := by
  have h1 := spec_c5_amended dbOne "mango" 3 [99] (by decide) (by decide) (by decide)
    (by decide)
  have h2 := spec_c5_amended dbOne "mango" 3 [1] (by decide) (by decide) (by decide)
    (by decide)
  obtain ⟨po, hresp, _, _, _, hcats, _, _⟩ := h2.2.1 (by decide) (by decide) (by decide)
  exact ⟨h1.1.mpr (by decide), po, hresp, hcats⟩

theorem getProductsCore_setAuth (db : DB) (ci : Option (List Int)) (ns : Option String) :
    (getProductsCore db ci ns).setAuth = none := by
  simp only [getProductsCore]
  split
  · split
    · rfl
    · rfl
  · rfl

/-- C10: a successful addProduct response carries the auth-cookie side effect with
the newly created product's id as signed payload, access cookie max-age 60
seconds and refresh cookie max-age 604800 seconds (7 days); addProduct error
responses and every response of getProducts, editProduct, deleteProduct,
addCategory and getCategories carry no auth-cookie side effect. -/
theorem spec_c10_auth_cookies :
    (∀ (db : DB) (n : String) (pr : Int) (cids : List Int) (r : Response) (db2 : DB),
        addProduct db n pr cids = (Except.ok r, db2) → r.status = "success" →
          r.setAuth = some (setAuthCookies db.nextProductId)
          ∧ setAuthCookies db.nextProductId =
              { payloadId := db.nextProductId, accessMaxAge := 60, refreshMaxAge := 604800 }
          ∧ db2.products = db.products ++
              [{ id := db.nextProductId, name := n, price := pr,
                 createdAt := db.now, updatedAt := db.now }])
    ∧ (∀ (db : DB) (n : String) (pr : Int) (cids : List Int) (r : Response) (db2 : DB),
        addProduct db n pr cids = (Except.ok r, db2) → r.status = "error" → r.setAuth = none)
    ∧ (∀ (db : DB) (raw ns : Option String) (r : Response) (db2 : DB),
        getProducts db raw ns = (Except.ok r, db2) → r.setAuth = none)
    ∧ (∀ (db : DB) (id : Int) (n : Option String) (pr : Option Int)
        (c : Option (List Int)) (r : Response) (db2 : DB),
        editProduct db id n pr c = (Except.ok r, db2) → r.setAuth = none)
    ∧ (∀ (db : DB) (id : Int) (r : Response) (db2 : DB),
        deleteProduct db id = (Except.ok r, db2) → r.setAuth = none)
    ∧ (∀ (db : DB) (n : Option String) (r : Response) (db2 : DB),
        addCategory db n = (Except.ok r, db2) → r.setAuth = none)
    ∧ (∀ (db : DB) (r : Response) (db2 : DB),
        getCategories db = (Except.ok r, db2) → r.setAuth = none) := by
  refine ⟨?_, ?_, ?_, ?_, ?_, ?_, ?_⟩
  · intro db n pr cids r db2 heq hst
    simp only [addProduct] at heq
    split at heq
    · rw [Prod.mk.injEq] at heq
      obtain ⟨h1, h2⟩ := heq
      injection h1 with h1
      subst h1
      simp at hst
    · split at heq
      · rw [Prod.mk.injEq] at heq
        obtain ⟨h1, h2⟩ := heq
        injection h1 with h1
        subst h1
        simp at hst
      · split at heq
        · rw [Prod.mk.injEq] at heq
          exact absurd heq.1 (by simp)
        · rw [Prod.mk.injEq] at heq
          obtain ⟨h1, h2⟩ := heq
          injection h1 with h1
          subst h1
          subst h2
          exact ⟨rfl, rfl, rfl⟩
  · intro db n pr cids r db2 heq hst
    simp only [addProduct] at heq
    split at heq
    · rw [Prod.mk.injEq] at heq
      obtain ⟨h1, h2⟩ := heq
      injection h1 with h1
      subst h1
      rfl
    · split at heq
      · rw [Prod.mk.injEq] at heq
        obtain ⟨h1, h2⟩ := heq
        injection h1 with h1
        subst h1
        rfl
      · split at heq
        · rw [Prod.mk.injEq] at heq
          exact absurd heq.1 (by simp)
        · rw [Prod.mk.injEq] at heq
          obtain ⟨h1, h2⟩ := heq
          injection h1 with h1
          subst h1
          simp at hst
  · intro db raw ns r db2 heq
    simp only [getProducts] at heq
    split at heq
    · split at heq
      · rw [Prod.mk.injEq] at heq
        exact absurd heq.1 (by simp)
      · rw [Prod.mk.injEq] at heq
        obtain ⟨h1, h2⟩ := heq
        injection h1 with h1
        subst h1
        exact getProductsCore_setAuth db _ ns
      · rw [Prod.mk.injEq] at heq
        obtain ⟨h1, h2⟩ := heq
        injection h1 with h1
        subst h1
        exact getProductsCore_setAuth db none ns
    · rw [Prod.mk.injEq] at heq
      obtain ⟨h1, h2⟩ := heq
      injection h1 with h1
      subst h1
      exact getProductsCore_setAuth db none ns
  · intro db id n pr c r db2 heq
    simp only [editProduct] at heq
    split at heq
    · rw [Prod.mk.injEq] at heq
      obtain ⟨h1, h2⟩ := heq
      injection h1 with h1
      subst h1
      rfl
    · split at heq
      · rw [Prod.mk.injEq] at heq
        exact absurd heq.1 (by simp)
      · split at heq
        · rw [Prod.mk.injEq] at heq
          exact absurd heq.1 (by simp)
        · rw [Prod.mk.injEq] at heq
          obtain ⟨h1, h2⟩ := heq
          injection h1 with h1
          subst h1
          rfl
  · intro db id r db2 heq
    simp only [deleteProduct] at heq
    split at heq
    · rw [Prod.mk.injEq] at heq
      obtain ⟨h1, h2⟩ := heq
      injection h1 with h1
      subst h1
      rfl
    · rw [Prod.mk.injEq] at heq
      obtain ⟨h1, h2⟩ := heq
      injection h1 with h1
      subst h1
      rfl
  · intro db n r db2 heq
    simp only [addCategory] at heq
    split at heq
    · rw [Prod.mk.injEq] at heq
      obtain ⟨h1, h2⟩ := heq
      injection h1 with h1
      subst h1
      rfl
    · split at heq
      · rw [Prod.mk.injEq] at heq
        obtain ⟨h1, h2⟩ := heq
        injection h1 with h1
        subst h1
        rfl
      · rw [Prod.mk.injEq] at heq
        obtain ⟨h1, h2⟩ := heq
        injection h1 with h1
        subst h1
        rfl
  · intro db r db2 heq
    simp only [getCategories] at heq
    rw [Prod.mk.injEq] at heq
    obtain ⟨h1, h2⟩ := heq
    injection h1 with h1
    subst h1
    rfl

/-- The concrete success response of addProduct on dbOne used by the C10 witness. -/
def respC10 : Response :=
  { statusCode := 200, message := "Product added successfully", status := "success",
    data := RespData.productOut
      { id := 2, name := "mango", price := 3, createdAt := some 9, updatedAt := some 9,
        categories := [{ id := 1, name := some "fruits" }] },
    setAuth := some { payloadId := 2, accessMaxAge := 60, refreshMaxAge := 604800 } }

/-- The concrete state after addProduct on dbOne used by the C10 witness. -/
def dbC10 : DB :=
  { products := [{ id := 1, name := "apple", price := 5, createdAt := 2, updatedAt := 2 },
                 { id := 2, name := "mango", price := 3, createdAt := 9, updatedAt := 9 }],
    categories := [{ id := 1, name := "fruits", createdAt := 0 }],
    productCategories := [{ productId := 1, categoryId := 1 },
                          { productId := 2, categoryId := 1 }],
    nextProductId := 3, nextCategoryId := 2, now := 9 }

/-- Witness for C10 at a concrete successful addProduct call. -/
theorem spec_c10_auth_cookies_witness :
    respC10.setAuth = some (setAuthCookies dbOne.nextProductId)
    ∧ setAuthCookies dbOne.nextProductId =
        { payloadId := dbOne.nextProductId, accessMaxAge := 60, refreshMaxAge := 604800 }
    ∧ dbC10.products = dbOne.products ++
        [{ id := dbOne.nextProductId, name := "mango", price := 3,
           createdAt := dbOne.now, updatedAt := dbOne.now }] :=
  spec_c10_auth_cookies.1 dbOne "mango" 3 [1] respC10 dbC10 (by rfl) (by rfl)
